import Mathlib

/-!
# Flash storage engine of esp-ena (`main/ena-storage.c`)

A shallow embedding of the storage engine and the properties of its
block-spanning write, its shift-delete and the three region APIs.

Modelling conventions.

* The partition is a total map from byte offsets to bytes.  The ESP-IDF
  primitives `esp_partition_read`, `esp_partition_erase_range` and
  `esp_partition_write` are external to the repository; they are modelled by
  their NOR-flash meaning: an erase sets every bit of the range, a write can
  only clear bits.  A failing primitive aborts the firmware
  (`ESP_ERROR_CHECK`), so device faults and failed allocations have no
  successor state and are not part of the model.
* A C pointer to a buffer is the map from offsets (from the pointer) to bytes.
* Offsets and sizes inside `ena_storage_write` and `ena_storage_shift_delete`
  are natural numbers.  They agree with the `size_t` / `int` arithmetic of the
  source whenever `address + size` and `end_address` are below `2 ^ 31`, which
  every offset of a flash partition satisfies.  The one operation that can
  leave this range on such arguments, the subtraction `end_address -
  data1_size` of `ena_storage_shift_delete`, wraps modulo `2 ^ 32` as in the
  source.
* Counters are `uint32_t` and slot indices `uint8_t` in the source; their
  wrap-around is explicit (`% 2 ^ 32`, `% 256`), and so is the wrap-around of
  the `size_t` address arithmetic of the region APIs.
* `ena-storage.h` is not part of the sources at hand.  The capacities and the
  record sizes it declares are the fields of `Config`.
* Claims about what a call does on the way are stated on copies of the source
  functions that follow the same branches and are proved to compute the same
  partition: `ena_storage_write_ops` records the partition primitives called;
  `ena_storage_write_fuel`, `ena_storage_shift_delete_fuel` and
  `shift_delete_loop_fuel` run with a budget of nested invocations and of loop
  rounds, fail when the budget is exhausted, and count the loop rounds.
-/

namespace EnaStorage

/-- One byte. -/
abbrev Byte := Fin 256

/-- Contents of the data partition: the byte stored at each offset. -/
abbrev Flash := Nat → Byte

/-- Memory behind a C pointer: the byte at each offset from the pointer. -/
abbrev Buffer := Nat → Byte

/-- Erase-block size, `#define BLOCK_SIZE (4096)`. -/
def BLOCK_SIZE : Nat := 4096

/-- Memory returned by `malloc` (or a zero-initialised local): the source
overwrites every byte of an allocation before it reads it, so the initial
content is immaterial and fixed to zero here. -/
def malloc : Buffer := fun _ => 0

/-- External primitive `esp_partition_read(partition, src_offset, dst, size)`:
fills `dst[0 .. size)` with the partition bytes at `src_offset ..`. -/
def esp_partition_read (f : Flash) (src_offset : Nat) (dst : Buffer) (size : Nat) : Buffer :=
  fun i => if i < size then f (src_offset + i) else dst i

/-- External primitive `esp_partition_erase_range(partition, offset, size)`:
every byte of the range becomes `0xFF`. -/
def esp_partition_erase_range (f : Flash) (offset size : Nat) : Flash :=
  fun p => if offset ≤ p ∧ p < offset + size then 255 else f p

/-- External primitive `esp_partition_write(partition, dst_offset, src, size)`:
programming NOR flash can only clear bits, so each byte of the range becomes
the bitwise AND of its old content and the source byte. -/
def esp_partition_write (f : Flash) (dst_offset : Nat) (src : Buffer) (size : Nat) : Flash :=
  fun p => if dst_offset ≤ p ∧ p < dst_offset + size then f p &&& src (p - dst_offset) else f p

/-- C library `memcpy(dst + dst_off, src + src_off, n)`.  The one overlapping
use in the source copies towards lower addresses, where the ascending copy of
the library reads every source byte before it is overwritten, so the copy is
taken from the source as it was before the call. -/
def memcpy (dst : Buffer) (dst_off : Nat) (src : Buffer) (src_off : Nat) (n : Nat) : Buffer :=
  fun i => if dst_off ≤ i ∧ i < dst_off + n then src (src_off + (i - dst_off)) else dst i

/-- Source `ena_storage_read(address, data, size)`. -/
def ena_storage_read (f : Flash) (address : Nat) (data : Buffer) (size : Nat) : Buffer :=
  esp_partition_read f address data size

/-- Source `ena_storage_write(address, data, size)`: read-modify-erase-write of
the erase-block when the range fits the block of `address`, otherwise two
recursive calls on the slice up to the block boundary and on the remainder.
Allocations succeed: the early return of the source on a failed `malloc`,
which skips the write, is not modelled.  The recursion is on `size`: both
slices of the second branch are strictly shorter than `size`. -/
def ena_storage_write (f : Flash) (address : Nat) (data : Buffer) (size : Nat) : Flash :=
  let block_num := address / BLOCK_SIZE
  if h : address + size ≤ (block_num + 1) * BLOCK_SIZE then
    let block_start := block_num * BLOCK_SIZE
    let block_address := address - block_start
    let buffer := esp_partition_read f block_start malloc BLOCK_SIZE
    let f1 := esp_partition_erase_range f block_start BLOCK_SIZE
    let buffer := memcpy buffer block_address data 0 size
    esp_partition_write f1 block_start buffer BLOCK_SIZE
  else
    let block2_address := (block_num + 1) * BLOCK_SIZE
    let data2_size := address + size - block2_address
    let data1_size := size - data2_size
    let data1 := memcpy malloc 0 data 0 data1_size
    let f1 := ena_storage_write f address data1 data1_size
    let data2 := memcpy malloc 0 data data1_size data2_size
    ena_storage_write f1 block2_address data2 data2_size
termination_by size
decreasing_by
  all_goals
    have hsplit := h
    simp only [block_num, BLOCK_SIZE] at hsplit ⊢
    omega

/-- Body of the loop of `ena_storage_shift_delete` for the block
`block_num_start`: read the block, shift inside the buffer, pull the first
`size` bytes of the next block into the tail unless the block is the last one,
erase the block and write the buffer back.  The loop is only entered with
`block_start + size ≤ BLOCK_SIZE`, so the subtractions do not wrap. -/
def shift_delete_block (size block_num_end : Nat) (f : Flash)
    (block_num_start block_start : Nat) : Flash :=
  let buffer := esp_partition_read f (block_num_start * BLOCK_SIZE) malloc BLOCK_SIZE
  let buffer := memcpy buffer block_start buffer (block_start + size)
    (BLOCK_SIZE - block_start - size)
  let buffer :=
    if block_num_end > block_num_start then
      let buffer_next_block :=
        esp_partition_read f ((block_num_start + 1) * BLOCK_SIZE) malloc BLOCK_SIZE
      memcpy buffer (BLOCK_SIZE - size) buffer_next_block 0 size
    else buffer
  let f1 := esp_partition_erase_range f (block_num_start * BLOCK_SIZE) BLOCK_SIZE
  esp_partition_write f1 (block_num_start * BLOCK_SIZE) buffer BLOCK_SIZE

/-- The loop `while (block_num_end >= block_num_start)` of
`ena_storage_shift_delete`, started with the loop variables `block_num_start`
and `block_start`; each round ends with `block_num_start++; block_start = 0`. -/
def shift_delete_loop (size block_num_end : Nat) (f : Flash)
    (block_num_start block_start : Nat) : Flash :=
  if h : block_num_end ≥ block_num_start then
    shift_delete_loop size block_num_end
      (shift_delete_block size block_num_end f block_num_start block_start)
      (block_num_start + 1) 0
  else f
termination_by block_num_end + 1 - block_num_start
decreasing_by
  omega

/-- Source `ena_storage_shift_delete(address, end_address, size)`.  The
`size_t` subtraction `end_address - data1_size` of the second recursive call
wraps modulo `2 ^ 32` when `end_address < data1_size`. -/
def ena_storage_shift_delete (f : Flash) (address end_address size : Nat) : Flash :=
  let block_num_start := address / BLOCK_SIZE
  if h : address + size ≤ (block_num_start + 1) * BLOCK_SIZE then
    let block_num_end := end_address / BLOCK_SIZE
    let block_start := address - block_num_start * BLOCK_SIZE
    shift_delete_loop size block_num_end f block_num_start block_start
  else
    let block1_address := address
    let block2_address := (block_num_start + 1) * BLOCK_SIZE
    let data2_size := address + size - block2_address
    let data1_size := size - data2_size
    let f1 := ena_storage_shift_delete f block1_address block2_address data1_size
    ena_storage_shift_delete f1 block2_address ((end_address + 2 ^ 32 - data1_size) % 2 ^ 32)
      data2_size
termination_by size
decreasing_by
  all_goals
    have hsplit := h
    simp only [block_num_start, BLOCK_SIZE] at hsplit ⊢
    omega

/-! ## Region layout and region APIs -/

/-- The constants and record sizes declared by `ena-storage.h`, which is not
among the sources: the two capacities and `sizeof` of the three record types. -/
structure Config where
  /-- Capacity of the key log, `ENA_STORAGE_TEK_STORE_PERIOD`. -/
  ENA_STORAGE_TEK_STORE_PERIOD : Nat
  /-- Capacity of the temporary-detection ring, `ENA_STORAGE_TEMP_DETECTIONS_MAX`. -/
  ENA_STORAGE_TEMP_DETECTIONS_MAX : Nat
  /-- The value of `sizeof(ena_tek_t)`. -/
  sizeof_ena_tek_t : Nat
  /-- The value of `sizeof(ena_temp_detection_t)`. -/
  sizeof_ena_temp_detection_t : Nat
  /-- The value of `sizeof(ena_detection_t)`. -/
  sizeof_ena_detection_t : Nat

/-- Modelled from the spec: the configuration of `ena-storage.h` as the data
model describes it.  A key record is a 32-bit epoch and a 16-byte key (20
bytes), a temporary detection is two 32-bit timestamps, a 16-byte identifier,
a 4-byte metadata blob and a signed signal strength (32 bytes), a detection
has one timestamp (28 bytes); the key log holds 14 records; the capacity of the
temporary-detection ring is not stated and is the argument. -/
def specConfig (temp_detections_max : Nat) : Config where
  ENA_STORAGE_TEK_STORE_PERIOD := 14
  ENA_STORAGE_TEMP_DETECTIONS_MAX := temp_detections_max
  sizeof_ena_tek_t := 20
  sizeof_ena_temp_detection_t := 32
  sizeof_ena_detection_t := 28

/-- The value of `sizeof(uint32_t)`. -/
def sizeof_uint32_t : Nat := 4

/-- Source constant `ENA_STORAGE_TEK_COUNT_ADDRESS`. -/
def ENA_STORAGE_TEK_COUNT_ADDRESS : Nat := 0

/-- Source constant `ENA_STORAGE_TEK_START_ADDRESS`. -/
def ENA_STORAGE_TEK_START_ADDRESS : Nat := ENA_STORAGE_TEK_COUNT_ADDRESS + sizeof_uint32_t

/-- Source constant `ENA_STORAGE_TEMP_DETECTIONS_COUNT_ADDRESS`. -/
def ENA_STORAGE_TEMP_DETECTIONS_COUNT_ADDRESS (cfg : Config) : Nat :=
  ENA_STORAGE_TEK_START_ADDRESS + cfg.sizeof_ena_tek_t * cfg.ENA_STORAGE_TEK_STORE_PERIOD

/-- Source constant `ENA_STORAGE_TEMP_DETECTIONS_START_ADDRESS`. -/
def ENA_STORAGE_TEMP_DETECTIONS_START_ADDRESS (cfg : Config) : Nat :=
  ENA_STORAGE_TEMP_DETECTIONS_COUNT_ADDRESS cfg + sizeof_uint32_t

/-- Source constant `ENA_STORAGE_DETECTIONS_COUNT_ADDRESS`. -/
def ENA_STORAGE_DETECTIONS_COUNT_ADDRESS (cfg : Config) : Nat :=
  ENA_STORAGE_TEMP_DETECTIONS_START_ADDRESS cfg +
    cfg.sizeof_ena_temp_detection_t * cfg.ENA_STORAGE_TEMP_DETECTIONS_MAX

/-- Source constant `ENA_STORAGE_DETECTIONS_START_ADDRESS`. -/
def ENA_STORAGE_DETECTIONS_START_ADDRESS (cfg : Config) : Nat :=
  ENA_STORAGE_DETECTIONS_COUNT_ADDRESS cfg + sizeof_uint32_t

/-- The four bytes of a `uint32_t` object in memory (little-endian, as on the
ESP32), seen through a pointer to it. -/
def uint32_bytes (n : Nat) : Buffer :=
  fun i => if i < 4 then Fin.ofNat (n / 256 ^ i) else 0

/-- The value of the `uint32_t` object stored in the first four bytes of a buffer. -/
def uint32_value (b : Buffer) : Nat :=
  (b 0).val + 256 * (b 1).val + 65536 * (b 2).val + 16777216 * (b 3).val

/-- The read of the key counter that opens the key-log functions of the
source: `uint32_t tek_count = 0; ena_storage_read(ENA_STORAGE_TEK_COUNT_ADDRESS,
&tek_count, sizeof(uint32_t));`. -/
def read_tek_count (f : Flash) : Nat :=
  uint32_value
    (ena_storage_read f ENA_STORAGE_TEK_COUNT_ADDRESS (uint32_bytes 0) sizeof_uint32_t)

/-- Source `ena_storage_read_last_tek(tek)`: the returned counter and the
memory behind `tek` after the call. -/
def ena_storage_read_last_tek (cfg : Config) (f : Flash) (tek : Buffer) : Nat × Buffer :=
  let tek_count := read_tek_count f
  if tek_count < 1 then
    (0, tek)
  else
    let index := ((tek_count % cfg.ENA_STORAGE_TEK_STORE_PERIOD + 2 ^ 32 - 1) % 2 ^ 32) % 256
    let tek := ena_storage_read f
      ((ENA_STORAGE_TEK_START_ADDRESS + index * cfg.sizeof_ena_tek_t) % 2 ^ 32)
      tek cfg.sizeof_ena_tek_t
    (tek_count, tek)

/-- Source `ena_storage_write_tek(tek)`. -/
def ena_storage_write_tek (cfg : Config) (f : Flash) (tek : Buffer) : Flash :=
  let tek_count := read_tek_count f
  let index := (tek_count % cfg.ENA_STORAGE_TEK_STORE_PERIOD) % 256
  let f1 := ena_storage_write f
    ((ENA_STORAGE_TEK_START_ADDRESS + index * cfg.sizeof_ena_tek_t) % 2 ^ 32)
    tek cfg.sizeof_ena_tek_t
  let tek_count := (tek_count + 1) % 2 ^ 32
  ena_storage_write f1 ENA_STORAGE_TEK_COUNT_ADDRESS (uint32_bytes tek_count) sizeof_uint32_t

/-- Source `ena_storage_temp_detections_count()`. -/
def ena_storage_temp_detections_count (cfg : Config) (f : Flash) : Nat :=
  uint32_value
    (ena_storage_read f (ENA_STORAGE_TEMP_DETECTIONS_COUNT_ADDRESS cfg) (uint32_bytes 0)
      sizeof_uint32_t)

/-- Source `ena_storage_get_temp_detection(index, detection)`: the memory
behind `detection` after the call. -/
def ena_storage_get_temp_detection (cfg : Config) (f : Flash) (index : Nat)
    (detection : Buffer) : Buffer :=
  ena_storage_read f
    ((ENA_STORAGE_TEMP_DETECTIONS_START_ADDRESS cfg + index * cfg.sizeof_ena_temp_detection_t)
      % 2 ^ 32)
    detection cfg.sizeof_ena_temp_detection_t

/-- Source `ena_storage_set_temp_detection(index, detection)`. -/
def ena_storage_set_temp_detection (cfg : Config) (f : Flash) (index : Nat)
    (detection : Buffer) : Flash :=
  ena_storage_write f
    ((ENA_STORAGE_TEMP_DETECTIONS_START_ADDRESS cfg + index * cfg.sizeof_ena_temp_detection_t)
      % 2 ^ 32)
    detection cfg.sizeof_ena_temp_detection_t

/-- Source `ena_storage_add_temp_detection(detection)`: the returned value and
the partition after the call. -/
def ena_storage_add_temp_detection (cfg : Config) (f : Flash) (detection : Buffer) :
    Nat × Flash :=
  let count := ena_storage_temp_detections_count cfg f
  let index := (count % cfg.ENA_STORAGE_TEMP_DETECTIONS_MAX) % 256
  let f1 := ena_storage_set_temp_detection cfg f index detection
  let count := (count + 1) % 2 ^ 32
  let f2 := ena_storage_write f1 (ENA_STORAGE_TEMP_DETECTIONS_COUNT_ADDRESS cfg)
    (uint32_bytes count) sizeof_uint32_t
  ((count + 2 ^ 32 - 1) % 2 ^ 32, f2)

/-- Source `ena_storage_remove_temp_detection(index)`. -/
def ena_storage_remove_temp_detection (cfg : Config) (f : Flash) (index : Nat) : Flash :=
  let count := ena_storage_temp_detections_count cfg f
  let address_from :=
    (ENA_STORAGE_TEMP_DETECTIONS_START_ADDRESS cfg + index * cfg.sizeof_ena_temp_detection_t)
      % 2 ^ 32
  let address_to :=
    (ENA_STORAGE_TEMP_DETECTIONS_START_ADDRESS cfg + count * cfg.sizeof_ena_temp_detection_t)
      % 2 ^ 32
  let f1 := ena_storage_shift_delete f address_from address_to cfg.sizeof_ena_temp_detection_t
  let count := (count + 2 ^ 32 - 1) % 2 ^ 32
  ena_storage_write f1 (ENA_STORAGE_TEMP_DETECTIONS_COUNT_ADDRESS cfg) (uint32_bytes count)
    sizeof_uint32_t

/-- Source `ena_storage_detections_count()`. -/
def ena_storage_detections_count (cfg : Config) (f : Flash) : Nat :=
  uint32_value
    (ena_storage_read f (ENA_STORAGE_DETECTIONS_COUNT_ADDRESS cfg) (uint32_bytes 0)
      sizeof_uint32_t)

/-- Source `ena_storage_get_detection(index, detection)`: the memory behind
`detection` after the call. -/
def ena_storage_get_detection (cfg : Config) (f : Flash) (index : Nat)
    (detection : Buffer) : Buffer :=
  ena_storage_read f
    ((ENA_STORAGE_DETECTIONS_START_ADDRESS cfg + index * cfg.sizeof_ena_detection_t) % 2 ^ 32)
    detection cfg.sizeof_ena_detection_t

/-- C library `calloc(size, sizeof(uint8_t))`: a buffer of zero bytes. -/
def calloc : Buffer := fun _ => 0

/-- Source `ena_storage_add_detection(detection)`. -/
def ena_storage_add_detection (cfg : Config) (f : Flash) (detection : Buffer) : Flash :=
  let count := ena_storage_detections_count cfg f
  let f1 := ena_storage_write f
    ((ENA_STORAGE_DETECTIONS_START_ADDRESS cfg + count * cfg.sizeof_ena_detection_t) % 2 ^ 32)
    detection cfg.sizeof_ena_detection_t
  let count := (count + 1) % 2 ^ 32
  ena_storage_write f1 (ENA_STORAGE_DETECTIONS_COUNT_ADDRESS cfg) (uint32_bytes count)
    sizeof_uint32_t

/-- Source `ena_storage_erase()`; `partition_size` is the field `partition->size`
of the partition found by the external lookup. -/
def ena_storage_erase (cfg : Config) (partition_size : Nat) (f : Flash) : Flash :=
  let f0 := esp_partition_erase_range f 0 partition_size
  let count := 0
  let f1 := ena_storage_write f0 ENA_STORAGE_TEK_COUNT_ADDRESS (uint32_bytes count)
    sizeof_uint32_t
  let f2 := ena_storage_write f1 (ENA_STORAGE_TEMP_DETECTIONS_COUNT_ADDRESS cfg)
    (uint32_bytes count) sizeof_uint32_t
  ena_storage_write f2 (ENA_STORAGE_DETECTIONS_COUNT_ADDRESS cfg) (uint32_bytes count)
    sizeof_uint32_t

/-- Source `ena_storage_erase_tek()`; `stored` is a `uint8_t` and `size` a
`size_t` in the source. -/
def ena_storage_erase_tek (cfg : Config) (f : Flash) : Flash :=
  let tek_count := read_tek_count f
  let stored :=
    if tek_count < cfg.ENA_STORAGE_TEK_STORE_PERIOD then tek_count % 256
    else cfg.ENA_STORAGE_TEK_STORE_PERIOD % 256
  let size := (sizeof_uint32_t + stored * cfg.sizeof_ena_tek_t) % 2 ^ 32
  let zeros := calloc
  ena_storage_write f ENA_STORAGE_TEK_COUNT_ADDRESS zeros size

/-- Source `ena_storage_erase_temporary_detection()`; `stored` is a `uint32_t`
and `size` a `size_t` in the source. -/
def ena_storage_erase_temporary_detection (cfg : Config) (f : Flash) : Flash :=
  let detection_count := uint32_value
    (ena_storage_read f (ENA_STORAGE_TEMP_DETECTIONS_COUNT_ADDRESS cfg) (uint32_bytes 0)
      sizeof_uint32_t)
  let stored :=
    if detection_count < cfg.ENA_STORAGE_TEMP_DETECTIONS_MAX then detection_count
    else cfg.ENA_STORAGE_TEMP_DETECTIONS_MAX % 2 ^ 32
  let size := (sizeof_uint32_t + stored * cfg.sizeof_ena_temp_detection_t) % 2 ^ 32
  let zeros := calloc
  ena_storage_write f (ENA_STORAGE_TEMP_DETECTIONS_COUNT_ADDRESS cfg) zeros size

/-- Source `ena_storage_erase_detection()`. -/
def ena_storage_erase_detection (cfg : Config) (f : Flash) : Flash :=
  let detection_count := uint32_value
    (ena_storage_read f (ENA_STORAGE_DETECTIONS_COUNT_ADDRESS cfg) (uint32_bytes 0)
      sizeof_uint32_t)
  let size := (sizeof_uint32_t + detection_count * cfg.sizeof_ena_detection_t) % 2 ^ 32
  let zeros := calloc
  ena_storage_write f (ENA_STORAGE_DETECTIONS_COUNT_ADDRESS cfg) zeros size

/-! ## Instrumented runs: physical operations, calls and loop rounds -/

/-- A call of one of the three partition primitives, with its arguments. -/
inductive FlashOp where
  /-- A call `esp_partition_read(partition, src_offset, _, size)`. -/
  | read (src_offset size : Nat)
  /-- A call `esp_partition_erase_range(partition, offset, size)`. -/
  | erase (offset size : Nat)
  /-- A call `esp_partition_write(partition, dst_offset, src, size)`. -/
  | write (dst_offset : Nat) (src : Buffer) (size : Nat)

/-- The body of `ena_storage_write` once more, returning next to the partition
the sequence of partition primitives it calls, in the order of the calls. -/
def ena_storage_write_ops (f : Flash) (address : Nat) (data : Buffer) (size : Nat) :
    Flash × List FlashOp :=
  let block_num := address / BLOCK_SIZE
  if h : address + size ≤ (block_num + 1) * BLOCK_SIZE then
    let block_start := block_num * BLOCK_SIZE
    let block_address := address - block_start
    let buffer := esp_partition_read f block_start malloc BLOCK_SIZE
    let f1 := esp_partition_erase_range f block_start BLOCK_SIZE
    let buffer := memcpy buffer block_address data 0 size
    (esp_partition_write f1 block_start buffer BLOCK_SIZE,
      [FlashOp.read block_start BLOCK_SIZE, FlashOp.erase block_start BLOCK_SIZE,
        FlashOp.write block_start buffer BLOCK_SIZE])
  else
    let block2_address := (block_num + 1) * BLOCK_SIZE
    let data2_size := address + size - block2_address
    let data1_size := size - data2_size
    let data1 := memcpy malloc 0 data 0 data1_size
    let r1 := ena_storage_write_ops f address data1 data1_size
    let data2 := memcpy malloc 0 data data1_size data2_size
    let r2 := ena_storage_write_ops r1.1 block2_address data2 data2_size
    (r2.1, r1.2 ++ r2.2)
termination_by size
decreasing_by
  all_goals
    have hsplit := h
    simp only [block_num, BLOCK_SIZE] at hsplit ⊢
    omega

/-- The block image that a write is to program, in the words of the spec: the
block starting at `block_start` as read from the partition, with the bytes of
the target range `[address, address + size)` replaced by the data.  Behind the
`BLOCK_SIZE` bytes of the allocation the buffer is as `malloc` left it. -/
def block_with_data (f : Flash) (address : Nat) (data : Buffer) (size block_start : Nat) :
    Buffer :=
  fun i =>
    if i < BLOCK_SIZE then
      if address ≤ block_start + i ∧ block_start + i < address + size then
        data (block_start + i - address)
      else f (block_start + i)
    else malloc i

/-- The numbers of the erase-blocks from the block of `address` to the block of
the last byte of `[address, address + size)`, in ascending order (`size > 0`). -/
def blocks_of_range (address size : Nat) : List Nat :=
  List.range' (address / BLOCK_SIZE)
    ((address + size - 1) / BLOCK_SIZE - address / BLOCK_SIZE + 1)

/-- The sequence of partition primitives that the spec prescribes for a write:
for each erase-block of the range, in ascending order, one full-block read,
one erase of the block and one full-block write of the block image. -/
def expected_write_ops (f : Flash) (address : Nat) (data : Buffer) (size : Nat) :
    List FlashOp :=
  (blocks_of_range address size).flatMap fun b =>
    [FlashOp.read (b * BLOCK_SIZE) BLOCK_SIZE, FlashOp.erase (b * BLOCK_SIZE) BLOCK_SIZE,
      FlashOp.write (b * BLOCK_SIZE) (block_with_data f address data size (b * BLOCK_SIZE))
        BLOCK_SIZE]

/-- The body of `ena_storage_write` once more, run with a budget of nested
invocations: every invocation takes one unit for itself and passes the rest to
its recursive calls; the run fails (`none`) when an invocation finds the budget
empty. -/
def ena_storage_write_fuel : Nat → Flash → Nat → Buffer → Nat → Option Flash
  | 0, _, _, _, _ => none
  | fuel + 1, f, address, data, size =>
    let block_num := address / BLOCK_SIZE
    if address + size ≤ (block_num + 1) * BLOCK_SIZE then
      let block_start := block_num * BLOCK_SIZE
      let block_address := address - block_start
      let buffer := esp_partition_read f block_start malloc BLOCK_SIZE
      let f1 := esp_partition_erase_range f block_start BLOCK_SIZE
      let buffer := memcpy buffer block_address data 0 size
      some (esp_partition_write f1 block_start buffer BLOCK_SIZE)
    else
      let block2_address := (block_num + 1) * BLOCK_SIZE
      let data2_size := address + size - block2_address
      let data1_size := size - data2_size
      let data1 := memcpy malloc 0 data 0 data1_size
      match ena_storage_write_fuel fuel f address data1 data1_size with
      | none => none
      | some f1 =>
        let data2 := memcpy malloc 0 data data1_size data2_size
        ena_storage_write_fuel fuel f1 block2_address data2 data2_size

/-- The loop `while (block_num_end >= block_num_start)` of
`ena_storage_shift_delete` once more, run with a budget of rounds: it returns
the partition and the number of rounds it ran, and fails (`none`) when the
loop condition still holds with the budget empty. -/
def shift_delete_loop_fuel (size block_num_end : Nat) :
    Nat → Flash → Nat → Nat → Option (Flash × Nat)
  | 0, f, block_num_start, _ =>
    if block_num_end ≥ block_num_start then none else some (f, 0)
  | fuel + 1, f, block_num_start, block_start =>
    if block_num_end ≥ block_num_start then
      match shift_delete_loop_fuel size block_num_end fuel
          (shift_delete_block size block_num_end f block_num_start block_start)
          (block_num_start + 1) 0 with
      | none => none
      | some (g, rounds) => some (g, rounds + 1)
    else some (f, 0)

/-- The body of `ena_storage_shift_delete` once more, run with a budget of
nested invocations and a budget `loop_fuel` of rounds for each run of the block
loop: it returns the partition and the total number of loop rounds of the
call, its recursive calls included, and fails (`none`) when a budget is
exhausted. -/
def ena_storage_shift_delete_fuel (loop_fuel : Nat) :
    Nat → Flash → Nat → Nat → Nat → Option (Flash × Nat)
  | 0, _, _, _, _ => none
  | fuel + 1, f, address, end_address, size =>
    let block_num_start := address / BLOCK_SIZE
    if address + size ≤ (block_num_start + 1) * BLOCK_SIZE then
      let block_num_end := end_address / BLOCK_SIZE
      let block_start := address - block_num_start * BLOCK_SIZE
      shift_delete_loop_fuel size block_num_end loop_fuel f block_num_start block_start
    else
      let block1_address := address
      let block2_address := (block_num_start + 1) * BLOCK_SIZE
      let data2_size := address + size - block2_address
      let data1_size := size - data2_size
      match ena_storage_shift_delete_fuel loop_fuel fuel f block1_address block2_address
          data1_size with
      | none => none
      | some (f1, rounds1) =>
        match ena_storage_shift_delete_fuel loop_fuel fuel f1 block2_address
            ((end_address + 2 ^ 32 - data1_size) % 2 ^ 32) data2_size with
        | none => none
        | some (f2, rounds2) => some (f2, rounds1 + rounds2)

/-- The partition after `ena_storage_write_tek` has been called on each record
of the list, first to last. -/
def write_teks (cfg : Config) (f : Flash) (teks : List Buffer) : Flash :=
  teks.foldl (ena_storage_write_tek cfg) f

/-! ## Concrete partitions and records used in the examples -/

/-- A partition in which every byte is zero; all three counters read 0. -/
def zeroFlash : Flash := fun _ => 0

/-- A record (of any size) whose bytes all have the value `n mod 256`. -/
def constRecord (n : Nat) : Buffer := fun _ => Fin.ofNat n

/-- The key records `r_1 .. r_n`, where every byte of `r_k` is `k`. -/
def constTeks (n : Nat) : List Buffer := (List.range n).map (fun k => constRecord (k + 1))

/-- A partition laid out for `specConfig 1000` (temporary-detection counter at
284, confirmed-detection counter at 32288) with the given two counter values
and zero in every other byte. -/
def countersFlash (temp_count detections_count : Nat) : Flash :=
  fun p =>
    if 284 ≤ p ∧ p < 288 then uint32_bytes temp_count (p - 284)
    else if 32288 ≤ p ∧ p < 32292 then uint32_bytes detections_count (p - 32288)
    else 0

/-- A freshly erased partition: every byte is `0xFF`, so all three counters
read `2 ^ 32 - 1`. -/
def erasedFlash : Flash := fun _ => 255

/-- A partition whose byte at offset `p` is `p mod 256`. -/
def offsetFlash : Flash := fun p => Fin.ofNat p

/-- A partition laid out for `specConfig 1000` that holds three temporary
detections: the counter at 284 is 3 and every other byte at offset `p` is
`p mod 256`, so that the three records differ. -/
def threeDetectionsFlash : Flash :=
  fun p => if 284 ≤ p ∧ p < 288 then uint32_bytes 3 (p - 284) else Fin.ofNat p

/-! ## Block-spanning write: pointwise effect -/

/-- Programming a byte of an erased block stores exactly the source byte. -/
theorem erased_and (x : Byte) : (255 : Byte) &&& x = x := by
  apply Fin.ext
  show (255 &&& x.val) % 256 = x.val
  rw [Nat.and_comm]
  have h := Nat.and_pow_two_sub_one_eq_mod x.val 8
  have hx := x.isLt
  norm_num at h
  rw [h]
  omega

/-- Unfolding of `ena_storage_write` when the range fits the block of `address`. -/
theorem ena_storage_write_local (f : Flash) (address : Nat) (data : Buffer) (size : Nat)
    (h : address + size ≤ (address / BLOCK_SIZE + 1) * BLOCK_SIZE) :
    ena_storage_write f address data size =
      esp_partition_write
        (esp_partition_erase_range f (address / BLOCK_SIZE * BLOCK_SIZE) BLOCK_SIZE)
        (address / BLOCK_SIZE * BLOCK_SIZE)
        (memcpy (esp_partition_read f (address / BLOCK_SIZE * BLOCK_SIZE) malloc BLOCK_SIZE)
          (address - address / BLOCK_SIZE * BLOCK_SIZE) data 0 size)
        BLOCK_SIZE := by
  rw [ena_storage_write]
  simp only [h, dite_true]

/-- Unfolding of `ena_storage_write` when the range leaves the block of `address`. -/
theorem ena_storage_write_split (f : Flash) (address : Nat) (data : Buffer) (size : Nat)
    (h : ¬ address + size ≤ (address / BLOCK_SIZE + 1) * BLOCK_SIZE) :
    ena_storage_write f address data size =
      ena_storage_write
        (ena_storage_write f address
          (memcpy malloc 0 data 0
            (size - (address + size - (address / BLOCK_SIZE + 1) * BLOCK_SIZE)))
          (size - (address + size - (address / BLOCK_SIZE + 1) * BLOCK_SIZE)))
        ((address / BLOCK_SIZE + 1) * BLOCK_SIZE)
        (memcpy malloc 0 data
          (size - (address + size - (address / BLOCK_SIZE + 1) * BLOCK_SIZE))
          (address + size - (address / BLOCK_SIZE + 1) * BLOCK_SIZE))
        (address + size - (address / BLOCK_SIZE + 1) * BLOCK_SIZE) := by
  rw [ena_storage_write]
  simp only [h, dite_false]

/-- Pointwise effect of the block-local branch of `ena_storage_write`. -/
theorem ena_storage_write_local_apply (f : Flash) (address : Nat) (data : Buffer) (size p : Nat)
    (h : address + size ≤ (address / BLOCK_SIZE + 1) * BLOCK_SIZE) :
    ena_storage_write f address data size p =
      if address ≤ p ∧ p < address + size then data (p - address) else f p := by
  rw [ena_storage_write_local f address data size h]
  simp only [esp_partition_write, esp_partition_erase_range, esp_partition_read, memcpy,
    BLOCK_SIZE] at h ⊢
  by_cases hb : address / 4096 * 4096 ≤ p ∧ p < address / 4096 * 4096 + 4096
  · rw [if_pos hb, if_pos hb, erased_and]
    by_cases hr : address ≤ p ∧ p < address + size
    · rw [if_pos hr, if_pos (by omega)]
      congr 1
      omega
    · rw [if_neg hr, if_neg (by omega), if_pos (by omega)]
      congr 1
      omega
  · rw [if_neg hb, if_neg hb, if_neg (by omega)]

/-- Pointwise effect of `ena_storage_write` for every address and size: the
bytes of `[address, address + size)` become the data, every other byte is kept. -/
theorem ena_storage_write_apply (size : Nat) :
    ∀ (f : Flash) (address : Nat) (data : Buffer) (p : Nat),
      ena_storage_write f address data size p =
        if address ≤ p ∧ p < address + size then data (p - address) else f p := by
  induction size using Nat.strong_induction_on with
  | _ size ih =>
    intro f address data p
    by_cases h : address + size ≤ (address / BLOCK_SIZE + 1) * BLOCK_SIZE
    · exact ena_storage_write_local_apply f address data size p h
    · rw [ena_storage_write_split f address data size h]
      have hlt1 : size - (address + size - (address / BLOCK_SIZE + 1) * BLOCK_SIZE) < size := by
        simp only [BLOCK_SIZE] at h ⊢
        omega
      have hlt2 : address + size - (address / BLOCK_SIZE + 1) * BLOCK_SIZE < size := by
        simp only [BLOCK_SIZE] at h ⊢
        omega
      rw [ih _ hlt2, ih _ hlt1]
      simp only [memcpy, BLOCK_SIZE] at h ⊢
      by_cases h2 : (address / 4096 + 1) * 4096 ≤ p ∧
          p < (address / 4096 + 1) * 4096 + (address + size - (address / 4096 + 1) * 4096)
      · rw [if_pos h2, if_pos (by omega), if_pos (by omega)]
        congr 1
        omega
      · rw [if_neg h2]
        by_cases h1 : address ≤ p ∧
            p < address + (size - (address + size - (address / 4096 + 1) * 4096))
        · rw [if_pos h1, if_pos (by omega), if_pos (by omega)]
          congr 1
          omega
        · rw [if_neg h1, if_neg (by omega)]

/-! ## Shift-delete: pointwise effect of the block-local branch -/

/-- One round of the loop: the bytes of the block from `block_start` on move
down by `size`; the tail of the block is filled from the next block unless the
block is the last one of the loop. -/
theorem shift_delete_block_apply (size block_num_end : Nat) (g : Flash)
    (block_num_start block_start q : Nat) (hbs : block_start + size ≤ BLOCK_SIZE) :
    shift_delete_block size block_num_end g block_num_start block_start q =
      if block_num_start * BLOCK_SIZE + block_start ≤ q ∧
          q < (if block_num_end > block_num_start then (block_num_start + 1) * BLOCK_SIZE
               else (block_num_start + 1) * BLOCK_SIZE - size)
      then g (q + size) else g q := by
  simp only [shift_delete_block, esp_partition_write, esp_partition_erase_range,
    esp_partition_read, memcpy, BLOCK_SIZE] at hbs ⊢
  by_cases hb : block_num_start * 4096 ≤ q ∧ q < block_num_start * 4096 + 4096
  · rw [if_pos hb, if_pos hb, erased_and]
    by_cases hlast : block_num_end > block_num_start
    · simp only [if_pos hlast, memcpy, esp_partition_read]
      split_ifs <;> first | rfl | (congr 1; omega)
    · simp only [if_neg hlast, memcpy, esp_partition_read]
      split_ifs <;> first | rfl | (congr 1; omega)
  · rw [if_neg hb, if_neg hb]
    split_ifs <;> first | rfl | (exfalso; omega)

/-- Unfolding of the loop when its condition holds. -/
theorem shift_delete_loop_step (size block_num_end : Nat) (g : Flash)
    (block_num_start block_start : Nat) (h : block_num_end ≥ block_num_start) :
    shift_delete_loop size block_num_end g block_num_start block_start =
      shift_delete_loop size block_num_end
        (shift_delete_block size block_num_end g block_num_start block_start)
        (block_num_start + 1) 0 := by
  rw [shift_delete_loop]
  simp only [h, dite_true]

/-- Unfolding of the loop when its condition fails. -/
theorem shift_delete_loop_exit (size block_num_end : Nat) (g : Flash)
    (block_num_start block_start : Nat) (h : ¬ block_num_end ≥ block_num_start) :
    shift_delete_loop size block_num_end g block_num_start block_start = g := by
  rw [shift_delete_loop]
  simp only [h, dite_false]

/-- Pointwise effect of the whole loop: every byte from the start position up
to `size` bytes before the end of the block `block_num_end` takes the value
found `size` bytes above it; every other byte is kept. -/
theorem shift_delete_loop_apply (size block_num_end : Nat) :
    ∀ (n : Nat) (g : Flash) (block_num_start block_start : Nat),
      block_num_end + 1 - block_num_start = n →
      block_start + size ≤ BLOCK_SIZE →
      ∀ p, shift_delete_loop size block_num_end g block_num_start block_start p =
        if block_num_start * BLOCK_SIZE + block_start ≤ p ∧
            p < (block_num_end + 1) * BLOCK_SIZE - size
        then g (p + size) else g p := by
  intro n
  induction n with
  | zero =>
    intro g bns bstart hn hbs p
    rw [shift_delete_loop_exit size block_num_end g bns bstart (by omega)]
    simp only [BLOCK_SIZE] at hbs ⊢
    rw [if_neg (by omega)]
  | succ n ih =>
    intro g bns bstart hn hbs p
    rw [shift_delete_loop_step size block_num_end g bns bstart (by omega)]
    rw [ih _ (bns + 1) 0 (by omega) (by omega) p]
    rw [shift_delete_block_apply size block_num_end g bns bstart _ hbs,
      shift_delete_block_apply size block_num_end g bns bstart _ hbs]
    simp only [BLOCK_SIZE] at hbs ⊢
    by_cases hlast : block_num_end > bns
    · simp only [if_pos hlast]
      split_ifs <;> first | rfl | (congr 1; omega)
    · simp only [if_neg hlast]
      split_ifs <;> first | rfl | (congr 1; omega)

/-- Unfolding of `ena_storage_shift_delete` when the removed range fits the
block of `address`. -/
theorem ena_storage_shift_delete_local (f : Flash) (address end_address size : Nat)
    (h : address + size ≤ (address / BLOCK_SIZE + 1) * BLOCK_SIZE) :
    ena_storage_shift_delete f address end_address size =
      shift_delete_loop size (end_address / BLOCK_SIZE) f (address / BLOCK_SIZE)
        (address - address / BLOCK_SIZE * BLOCK_SIZE) := by
  rw [ena_storage_shift_delete]
  simp only [h, dite_true]

/-- Unfolding of `ena_storage_shift_delete` when the removed range leaves the
block of `address`. -/
theorem ena_storage_shift_delete_split (f : Flash) (address end_address size : Nat)
    (h : ¬ address + size ≤ (address / BLOCK_SIZE + 1) * BLOCK_SIZE) :
    ena_storage_shift_delete f address end_address size =
      ena_storage_shift_delete
        (ena_storage_shift_delete f address ((address / BLOCK_SIZE + 1) * BLOCK_SIZE)
          (size - (address + size - (address / BLOCK_SIZE + 1) * BLOCK_SIZE)))
        ((address / BLOCK_SIZE + 1) * BLOCK_SIZE)
        ((end_address + 2 ^ 32 -
          (size - (address + size - (address / BLOCK_SIZE + 1) * BLOCK_SIZE))) % 2 ^ 32)
        (address + size - (address / BLOCK_SIZE + 1) * BLOCK_SIZE) := by
  rw [ena_storage_shift_delete]
  simp only [h, dite_false]

/-- Pointwise effect of `ena_storage_shift_delete` when the removed range fits
the block of `address`: with `E` the end of the erase-block of `end_address`,
the bytes of `[address, E - size)` take the value found `size` bytes above,
every other byte is kept. -/
theorem ena_storage_shift_delete_local_apply (f : Flash) (address end_address size p : Nat)
    (h : address + size ≤ (address / BLOCK_SIZE + 1) * BLOCK_SIZE) :
    ena_storage_shift_delete f address end_address size p =
      if address ≤ p ∧ p < (end_address / BLOCK_SIZE + 1) * BLOCK_SIZE - size
      then f (p + size) else f p := by
  rw [ena_storage_shift_delete_local f address end_address size h]
  rw [shift_delete_loop_apply size (end_address / BLOCK_SIZE) _ f (address / BLOCK_SIZE)
    (address - address / BLOCK_SIZE * BLOCK_SIZE) rfl
    (by simp only [BLOCK_SIZE] at h ⊢; omega) p]
  simp only [BLOCK_SIZE] at h ⊢
  have e : address / 4096 * 4096 + (address - address / 4096 * 4096) = address := by omega
  simp only [e]

/-! ## Claims on the block-spanning write -/

/-- C1: write/read round trip.  For every partition content, address, data
and size (any number of erase-block boundaries crossed), reading `size` bytes
at `address` after `ena_storage_write(address, data, size)` fills the output
buffer with exactly the `size` bytes of `data` (and leaves the rest of the
output buffer alone). -/
theorem ena_storage_write_read_round_trip (f : Flash) (address : Nat) (data out : Buffer)
    (size : Nat) :
    ena_storage_read (ena_storage_write f address data size) address out size =
      fun i => if i < size then data i else out i := by
  funext i
  simp only [ena_storage_read, esp_partition_read]
  by_cases hi : i < size
  · rw [if_pos hi, if_pos hi, ena_storage_write_apply, if_pos (by omega)]
    congr 1
    omega
  · rw [if_neg hi, if_neg hi]

/-- C2: write frame.  `ena_storage_write(address, data, size)` keeps every
byte at a position outside `[address, address + size)`, whether or not the
range crosses erase-block boundaries; a write of size 0 keeps the whole
partition. -/
theorem ena_storage_write_frame (f : Flash) (address : Nat) (data : Buffer) (size p : Nat)
    (h : p < address ∨ address + size ≤ p) :
    ena_storage_write f address data size p = f p ∧
      ena_storage_write f address data 0 = f := by
  constructor
  · rw [ena_storage_write_apply, if_neg (by omega)]
  · funext q
    rw [ena_storage_write_apply, if_neg (by omega)]

/-- Witness of C2: a 10-byte write at 4090 crosses the boundary at 4096 and
keeps the byte at 4100. -/
theorem ena_storage_write_frame_witness :
    (4100 < 4090 ∨ 4090 + 10 ≤ 4100) ∧
      (ena_storage_write (fun _ => 7) 4090 (fun _ => 1) 10 4100 = 7 ∧
        ena_storage_write (fun _ => 7) 4090 (fun _ => 1) 0 = fun _ => 7) :=
  ⟨by decide, ena_storage_write_frame (fun _ => 7) 4090 (fun _ => 1) 10 4100 (by decide)⟩

/-! ## Claims on shift-delete -/

/-- C3: shift-delete of a range that crosses an erase-block boundary.  On the
partition whose byte at `p` is `p mod 256`, `ena_storage_shift_delete(4095,
4098, 2)` leaves at position 4095 the old byte of position 4096 (value 0),
which lies inside the removed range, and not the old byte of position 4097
(value 1). -/
theorem ena_storage_shift_delete_crossing_keeps_removed_byte :
    ena_storage_shift_delete offsetFlash 4095 4098 2 4095 = offsetFlash 4096 ∧
      offsetFlash 4096 ≠ offsetFlash (4095 + 2) := by
  constructor
  · rw [ena_storage_shift_delete_split _ _ _ _ (by decide)]
    rw [ena_storage_shift_delete_local_apply _ _ _ _ _ (by decide)]
    rw [if_neg (by decide)]
    rw [ena_storage_shift_delete_local_apply _ _ _ _ _ (by decide)]
    rw [if_pos (by decide)]
    rfl
  · decide

/-- C4: shift-delete beyond the end address.  On the partition whose byte at
`p` is `p mod 256`, `ena_storage_shift_delete(0, 8, 4)` replaces the byte at
position 8, which is not below the end address 8, by the old byte of position
12. -/
theorem ena_storage_shift_delete_moves_bytes_after_end :
    ena_storage_shift_delete offsetFlash 0 8 4 8 = offsetFlash 12 ∧
      offsetFlash 12 ≠ offsetFlash 8 := by
  constructor
  · rw [ena_storage_shift_delete_local_apply _ _ _ _ _ (by decide)]
    rw [if_pos (by decide)]
  · decide

/-! ## Counters -/

/-- A stored counter is a 32-bit value. -/
theorem uint32_value_lt (b : Buffer) : uint32_value b < 2 ^ 32 := by
  have h0 := (b 0).isLt
  have h1 := (b 1).isLt
  have h2 := (b 2).isLt
  have h3 := (b 3).isLt
  simp only [uint32_value]
  omega

/-- Storing a counter and loading it again gives the value modulo `2 ^ 32`. -/
theorem uint32_value_bytes (n : Nat) : uint32_value (uint32_bytes n) = n % 2 ^ 32 := by
  simp only [uint32_value, uint32_bytes, Fin.ofNat, Fin.val_mk]
  norm_num
  omega

/-- The value of a counter only depends on its four bytes. -/
theorem uint32_value_congr (b c : Buffer) (h0 : b 0 = c 0) (h1 : b 1 = c 1) (h2 : b 2 = c 2)
    (h3 : b 3 = c 3) : uint32_value b = uint32_value c := by
  simp only [uint32_value, h0, h1, h2, h3]

/-- A counter written with `ena_storage_write` is read back modulo `2 ^ 32`. -/
theorem uint32_read_write (f : Flash) (address n : Nat) (b : Buffer) :
    uint32_value
      (ena_storage_read (ena_storage_write f address (uint32_bytes n) sizeof_uint32_t)
        address b sizeof_uint32_t) = n % 2 ^ 32 := by
  rw [← uint32_value_bytes n]
  apply uint32_value_congr <;>
    simp only [ena_storage_read, esp_partition_read, sizeof_uint32_t] <;>
    norm_num <;> rw [ena_storage_write_apply, if_pos (by omega)] <;> congr 1 <;> omega

/-- A counter is not affected by a change of the partition outside its four bytes. -/
theorem uint32_read_congr (f g : Flash) (address : Nat) (b : Buffer)
    (h : ∀ p, address ≤ p → p < address + 4 → f p = g p) :
    uint32_value (ena_storage_read f address b sizeof_uint32_t) =
      uint32_value (ena_storage_read g address b sizeof_uint32_t) := by
  apply uint32_value_congr <;>
    simp only [ena_storage_read, esp_partition_read, sizeof_uint32_t] <;>
    norm_num <;> apply h <;> omega

/-! ## Key log -/

/-- Pointwise effect of `ena_storage_write_tek`: the four counter bytes hold
the incremented counter, the slot selected by the 8-bit index holds the
record, every other byte is kept. -/
theorem ena_storage_write_tek_apply (cfg : Config) (f : Flash) (tek : Buffer) (p : Nat) :
    ena_storage_write_tek cfg f tek p =
      if ENA_STORAGE_TEK_COUNT_ADDRESS ≤ p ∧
          p < ENA_STORAGE_TEK_COUNT_ADDRESS + sizeof_uint32_t then
        uint32_bytes ((read_tek_count f + 1) % 2 ^ 32) (p - ENA_STORAGE_TEK_COUNT_ADDRESS)
      else if
          (ENA_STORAGE_TEK_START_ADDRESS +
              (read_tek_count f % cfg.ENA_STORAGE_TEK_STORE_PERIOD % 256) * cfg.sizeof_ena_tek_t)
            % 2 ^ 32 ≤ p ∧
          p < (ENA_STORAGE_TEK_START_ADDRESS +
              (read_tek_count f % cfg.ENA_STORAGE_TEK_STORE_PERIOD % 256) * cfg.sizeof_ena_tek_t)
            % 2 ^ 32 + cfg.sizeof_ena_tek_t then
        tek (p - (ENA_STORAGE_TEK_START_ADDRESS +
              (read_tek_count f % cfg.ENA_STORAGE_TEK_STORE_PERIOD % 256) * cfg.sizeof_ena_tek_t)
            % 2 ^ 32)
      else f p := by
  simp only [ena_storage_write_tek]
  rw [ena_storage_write_apply, ena_storage_write_apply]

/-- The key counter after `ena_storage_write_tek` is the old one plus one,
modulo `2 ^ 32`. -/
theorem read_tek_count_write_tek (cfg : Config) (f : Flash) (tek : Buffer) :
    read_tek_count (ena_storage_write_tek cfg f tek) = (read_tek_count f + 1) % 2 ^ 32 := by
  simp only [ena_storage_write_tek]
  rw [read_tek_count, uint32_read_write, Nat.mod_mod]

/-- The slot written by `ena_storage_write_tek` lies inside the key log, so
every byte from the temporary-detection counter on is kept. -/
theorem ena_storage_write_tek_frame (cfg : Config) (f : Flash) (tek : Buffer) (p : Nat)
    (hP : 0 < cfg.ENA_STORAGE_TEK_STORE_PERIOD)
    (hp : ENA_STORAGE_TEMP_DETECTIONS_COUNT_ADDRESS cfg ≤ p) :
    ena_storage_write_tek cfg f tek p = f p := by
  rw [ena_storage_write_tek_apply]
  have hidx : read_tek_count f % cfg.ENA_STORAGE_TEK_STORE_PERIOD % 256 + 1 ≤
      cfg.ENA_STORAGE_TEK_STORE_PERIOD := by
    have h1 := Nat.mod_lt (read_tek_count f) hP
    have h2 := Nat.mod_le (read_tek_count f % cfg.ENA_STORAGE_TEK_STORE_PERIOD) 256
    omega
  have hmul := Nat.mul_le_mul_right cfg.sizeof_ena_tek_t hidx
  have hmod := Nat.mod_le (ENA_STORAGE_TEK_START_ADDRESS +
    (read_tek_count f % cfg.ENA_STORAGE_TEK_STORE_PERIOD % 256) * cfg.sizeof_ena_tek_t) (2 ^ 32)
  have hcomm : cfg.sizeof_ena_tek_t * cfg.ENA_STORAGE_TEK_STORE_PERIOD =
      cfg.ENA_STORAGE_TEK_STORE_PERIOD * cfg.sizeof_ena_tek_t := Nat.mul_comm _ _
  simp only [ENA_STORAGE_TEMP_DETECTIONS_COUNT_ADDRESS, ENA_STORAGE_TEK_START_ADDRESS,
    ENA_STORAGE_TEK_COUNT_ADDRESS, sizeof_uint32_t, Nat.add_mul, Nat.one_mul] at *
  rw [if_neg (by omega), if_neg (by omega)]

/-- The key counter after a sequence of `ena_storage_write_tek` calls. -/
theorem read_tek_count_write_teks (cfg : Config) (teks : List Buffer) :
    ∀ f : Flash, read_tek_count (write_teks cfg f teks) =
      (read_tek_count f + teks.length) % 2 ^ 32 := by
  induction teks with
  | nil =>
    intro f
    have h := uint32_value_lt
      (ena_storage_read f ENA_STORAGE_TEK_COUNT_ADDRESS (uint32_bytes 0) sizeof_uint32_t)
    simp only [write_teks, List.foldl_nil, List.length_nil, Nat.add_zero]
    rw [Nat.mod_eq_of_lt]
    exact h
  | cons t ts ih =>
    intro f
    have h := ih (ena_storage_write_tek cfg f t)
    simp only [write_teks, List.foldl_cons, List.length_cons] at h ⊢
    rw [h, read_tek_count_write_tek]
    omega

/-- A sequence of `ena_storage_write_tek` calls keeps every byte from the
temporary-detection counter on. -/
theorem write_teks_frame (cfg : Config) (teks : List Buffer) (p : Nat)
    (hP : 0 < cfg.ENA_STORAGE_TEK_STORE_PERIOD)
    (hp : ENA_STORAGE_TEMP_DETECTIONS_COUNT_ADDRESS cfg ≤ p) :
    ∀ f : Flash, write_teks cfg f teks p = f p := by
  induction teks with
  | nil =>
    intro f
    rfl
  | cons t ts ih =>
    intro f
    have h := ih (ena_storage_write_tek cfg f t)
    simp only [write_teks, List.foldl_cons] at h ⊢
    rw [h, ena_storage_write_tek_frame cfg f t p hP hp]

/-- Writing a list of key records and then one more record. -/
theorem write_teks_append (cfg : Config) (f : Flash) (teks : List Buffer) (tek : Buffer) :
    write_teks cfg f (teks ++ [tek]) = ena_storage_write_tek cfg (write_teks cfg f teks) tek := by
  simp only [write_teks, List.foldl_append, List.foldl_cons, List.foldl_nil]

/-- C5: last key at a multiple of the period.  With the spec's layout
(`TEK_STORE_PERIOD = 14`, 20-byte key records), after 14 calls of
`ena_storage_write_tek` with the records `r_1 .. r_14` (every byte of `r_k`
is `k`) on a partition of zeros, the record `r_14` is stored in slot 13
(offset `4 + 13 * 20 = 264`), but `ena_storage_read_last_tek` returns the
count 14 together with the 20 bytes at offset `4 + 255 * 20 = 5104`, outside
the key log: the first output byte is 0, not the 14 of `r_14`. -/
theorem ena_storage_read_last_tek_at_period :
    ena_storage_read (write_teks (specConfig 1000) zeroFlash (constTeks 14)) 264 malloc 20 =
      (fun i => if i < 20 then constRecord 14 i else malloc i) ∧
    ena_storage_read_last_tek (specConfig 1000)
        (write_teks (specConfig 1000) zeroFlash (constTeks 14)) malloc =
      (14, ena_storage_read zeroFlash 5104 malloc 20) ∧
    ena_storage_read zeroFlash 5104 malloc 20 0 ≠ constRecord 14 0 := by
  refine ⟨?_, ?_, by decide⟩
  · have hl : constTeks 14 = constTeks 13 ++ [constRecord 14] := by
      simp only [constTeks, List.range_succ, List.map_append, List.map_cons, List.map_nil]
    have hc : read_tek_count (write_teks (specConfig 1000) zeroFlash (constTeks 13)) = 13 := by
      rw [read_tek_count_write_teks]
      decide
    funext i
    rw [hl, write_teks_append]
    simp only [ena_storage_read, esp_partition_read]
    by_cases hi : i < 20
    · rw [if_pos hi, if_pos hi, ena_storage_write_tek_apply, hc]
      have e : (ENA_STORAGE_TEK_START_ADDRESS +
          13 % (specConfig 1000).ENA_STORAGE_TEK_STORE_PERIOD % 256 *
            (specConfig 1000).sizeof_ena_tek_t) % 2 ^ 32 = 264 := by decide
      have e0 : ENA_STORAGE_TEK_COUNT_ADDRESS + sizeof_uint32_t = 4 := by decide
      have e1 : (specConfig 1000).sizeof_ena_tek_t = 20 := rfl
      rw [e, e0, e1]
      have hn : ¬ (ENA_STORAGE_TEK_COUNT_ADDRESS ≤ 264 + i ∧ 264 + i < 4) := by omega
      have hy : 264 ≤ 264 + i ∧ 264 + i < 264 + 20 := by omega
      rw [if_neg hn, if_pos hy]
      simp only [constRecord]
    · rw [if_neg hi, if_neg hi]
  · have hc : read_tek_count (write_teks (specConfig 1000) zeroFlash (constTeks 14)) = 14 := by
      rw [read_tek_count_write_teks]
      decide
    simp only [ena_storage_read_last_tek, hc]
    rw [if_neg (by decide)]
    congr 1
    funext i
    simp only [ena_storage_read, esp_partition_read]
    by_cases hi : i < (specConfig 1000).sizeof_ena_tek_t
    · have hi2 : i < 20 := hi
      rw [if_pos hi, if_pos hi2]
      have e : (ENA_STORAGE_TEK_START_ADDRESS +
          (14 % (specConfig 1000).ENA_STORAGE_TEK_STORE_PERIOD + 2 ^ 32 - 1) % 2 ^ 32 % 256 *
            (specConfig 1000).sizeof_ena_tek_t) % 2 ^ 32 = 5104 := by decide
      rw [e]
      exact write_teks_frame (specConfig 1000) (constTeks 14) (5104 + i) (by decide)
        (by
          have : ENA_STORAGE_TEMP_DETECTIONS_COUNT_ADDRESS (specConfig 1000) = 284 := by decide
          omega) zeroFlash
    · have hi2 : ¬ i < 20 := hi
      rw [if_neg hi, if_neg hi2]

/-! ## Temporary detections -/

/-- Pointwise effect of `ena_storage_add_temp_detection` on the partition: the
four counter bytes hold the incremented counter, the slot selected by the
8-bit index holds the record, every other byte is kept. -/
theorem ena_storage_add_temp_detection_apply (cfg : Config) (f : Flash) (detection : Buffer)
    (p : Nat) :
    (ena_storage_add_temp_detection cfg f detection).2 p =
      if ENA_STORAGE_TEMP_DETECTIONS_COUNT_ADDRESS cfg ≤ p ∧
          p < ENA_STORAGE_TEMP_DETECTIONS_COUNT_ADDRESS cfg + sizeof_uint32_t then
        uint32_bytes ((ena_storage_temp_detections_count cfg f + 1) % 2 ^ 32)
          (p - ENA_STORAGE_TEMP_DETECTIONS_COUNT_ADDRESS cfg)
      else if
          (ENA_STORAGE_TEMP_DETECTIONS_START_ADDRESS cfg +
              (ena_storage_temp_detections_count cfg f % cfg.ENA_STORAGE_TEMP_DETECTIONS_MAX
                % 256) * cfg.sizeof_ena_temp_detection_t) % 2 ^ 32 ≤ p ∧
          p < (ENA_STORAGE_TEMP_DETECTIONS_START_ADDRESS cfg +
              (ena_storage_temp_detections_count cfg f % cfg.ENA_STORAGE_TEMP_DETECTIONS_MAX
                % 256) * cfg.sizeof_ena_temp_detection_t) % 2 ^ 32 +
            cfg.sizeof_ena_temp_detection_t then
        detection (p - (ENA_STORAGE_TEMP_DETECTIONS_START_ADDRESS cfg +
              (ena_storage_temp_detections_count cfg f % cfg.ENA_STORAGE_TEMP_DETECTIONS_MAX
                % 256) * cfg.sizeof_ena_temp_detection_t) % 2 ^ 32)
      else f p := by
  simp only [ena_storage_add_temp_detection, ena_storage_set_temp_detection]
  rw [ena_storage_write_apply, ena_storage_write_apply]

/-- C6: return value of add after the ring has wrapped.  With capacity 1000
and a stored count of 1000, `ena_storage_add_temp_detection` writes the record
into slot `1000 mod 1000 = 0` (first byte at offset 288) and returns 1000, the
old counter value, not the slot index 0. -/
theorem ena_storage_add_temp_detection_returns_count :
    (ena_storage_add_temp_detection (specConfig 1000) (countersFlash 1000 0) (constRecord 1)).1
        = 1000 ∧
      1000 % (specConfig 1000).ENA_STORAGE_TEMP_DETECTIONS_MAX = 0 ∧
      (ena_storage_add_temp_detection (specConfig 1000) (countersFlash 1000 0)
        (constRecord 1)).2 288 = constRecord 1 0 := by
  refine ⟨by decide, by decide, ?_⟩
  rw [ena_storage_add_temp_detection_apply]
  decide

/-- C7: add/get round trip after the ring has wrapped.  With capacity 1000, a
stored count of 1000 and a confirmed-detection counter of 5, reading the
temporary detection at the index returned by `ena_storage_add_temp_detection`
(1000) reads offset `288 + 1000 * 32 = 32288`, the confirmed-detection
counter: the first byte read is 5, not the 1 of the record that was added. -/
theorem ena_storage_get_temp_detection_at_returned_index :
    ena_storage_get_temp_detection (specConfig 1000)
        (ena_storage_add_temp_detection (specConfig 1000) (countersFlash 1000 5)
          (constRecord 1)).2
        (ena_storage_add_temp_detection (specConfig 1000) (countersFlash 1000 5)
          (constRecord 1)).1
        malloc 0 = 5 ∧
      constRecord 1 0 = 1 := by
  refine ⟨?_, by decide⟩
  have h1 : (ena_storage_add_temp_detection (specConfig 1000) (countersFlash 1000 5)
      (constRecord 1)).1 = 1000 := by decide
  rw [h1]
  simp only [ena_storage_get_temp_detection, ena_storage_read, esp_partition_read]
  rw [if_pos (by decide), ena_storage_add_temp_detection_apply]
  decide

/-- C8: slot chosen by add with a capacity above 256.  With capacity 1000 and
a stored count of 256, `ena_storage_add_temp_detection` truncates the slot
index `256 mod 1000 = 256` to 8 bits: the record is stored in slot 0 (offset
288), and slot 256 (offset `288 + 256 * 32 = 8480`) keeps its old content. -/
theorem ena_storage_add_temp_detection_truncates_slot :
    256 % (specConfig 1000).ENA_STORAGE_TEMP_DETECTIONS_MAX = 256 ∧
      ena_storage_get_temp_detection (specConfig 1000)
        (ena_storage_add_temp_detection (specConfig 1000) (countersFlash 256 0)
          (constRecord 1)).2 0 malloc 0 = constRecord 1 0 ∧
      ena_storage_get_temp_detection (specConfig 1000)
        (ena_storage_add_temp_detection (specConfig 1000) (countersFlash 256 0)
          (constRecord 1)).2 256 malloc 0 = countersFlash 256 0 8480 ∧
      countersFlash 256 0 8480 ≠ constRecord 1 0 := by
  refine ⟨by decide, ?_, ?_, by decide⟩
  · simp only [ena_storage_get_temp_detection, ena_storage_read, esp_partition_read]
    rw [if_pos (by decide), ena_storage_add_temp_detection_apply]
    decide
  · simp only [ena_storage_get_temp_detection, ena_storage_read, esp_partition_read]
    rw [if_pos (by decide), ena_storage_add_temp_detection_apply]
    decide

/-- A record whose size divides the erase-block size and whose start is a
multiple of its size does not cross an erase-block boundary. -/
theorem aligned_record_in_block (sz a : Nat) (hsz : sz ∣ BLOCK_SIZE) (ha : sz ∣ a) :
    a + sz ≤ (a / BLOCK_SIZE + 1) * BLOCK_SIZE := by
  obtain ⟨m, hm⟩ := ha
  obtain ⟨c, hc⟩ := hsz
  have hlt : a < (a / BLOCK_SIZE + 1) * BLOCK_SIZE := by
    simp only [BLOCK_SIZE]
    omega
  have hB : (a / BLOCK_SIZE + 1) * BLOCK_SIZE = sz * (c * (a / BLOCK_SIZE + 1)) := by
    rw [hc, Nat.mul_comm, Nat.mul_assoc]
  rw [hB] at hlt ⊢
  rw [hm] at hlt
  have hmc : m < c * (sz * m / (sz * c) + 1) := by
    rw [hm, hc] at *
    exact Nat.lt_of_mul_lt_mul_left hlt
  have hle : sz * (m + 1) ≤ sz * (c * (a / BLOCK_SIZE + 1)) := by
    apply Nat.mul_le_mul_left
    rw [hm, hc]
    omega
  rw [Nat.mul_add, Nat.mul_one] at hle
  rw [hm] at hle ⊢
  exact hle

/-- Pointwise effect of `ena_storage_remove_temp_detection` when the removed
record lies inside one erase-block: the counter bytes hold the decremented
counter; from the removed record up to one record before the end of the
erase-block of the end address every byte takes the value found one record
above; every other byte is kept. -/
theorem ena_storage_remove_temp_detection_apply (cfg : Config) (f : Flash) (index p : Nat)
    (hblk :
      (ENA_STORAGE_TEMP_DETECTIONS_START_ADDRESS cfg + index * cfg.sizeof_ena_temp_detection_t)
          % 2 ^ 32 + cfg.sizeof_ena_temp_detection_t ≤
        ((ENA_STORAGE_TEMP_DETECTIONS_START_ADDRESS cfg +
            index * cfg.sizeof_ena_temp_detection_t) % 2 ^ 32 / BLOCK_SIZE + 1) * BLOCK_SIZE) :
    ena_storage_remove_temp_detection cfg f index p =
      if ENA_STORAGE_TEMP_DETECTIONS_COUNT_ADDRESS cfg ≤ p ∧
          p < ENA_STORAGE_TEMP_DETECTIONS_COUNT_ADDRESS cfg + sizeof_uint32_t then
        uint32_bytes ((ena_storage_temp_detections_count cfg f + 2 ^ 32 - 1) % 2 ^ 32)
          (p - ENA_STORAGE_TEMP_DETECTIONS_COUNT_ADDRESS cfg)
      else if
          (ENA_STORAGE_TEMP_DETECTIONS_START_ADDRESS cfg +
              index * cfg.sizeof_ena_temp_detection_t) % 2 ^ 32 ≤ p ∧
          p < ((ENA_STORAGE_TEMP_DETECTIONS_START_ADDRESS cfg +
              ena_storage_temp_detections_count cfg f * cfg.sizeof_ena_temp_detection_t)
                % 2 ^ 32 / BLOCK_SIZE + 1) * BLOCK_SIZE - cfg.sizeof_ena_temp_detection_t then
        f (p + cfg.sizeof_ena_temp_detection_t)
      else f p := by
  simp only [ena_storage_remove_temp_detection]
  rw [ena_storage_write_apply, ena_storage_shift_delete_local_apply _ _ _ _ _ hblk]

/-- The counter after `ena_storage_remove_temp_detection` is the old one minus
one, modulo `2 ^ 32`. -/
theorem ena_storage_temp_detections_count_remove (cfg : Config) (f : Flash) (index : Nat) :
    ena_storage_temp_detections_count cfg (ena_storage_remove_temp_detection cfg f index) =
      (ena_storage_temp_detections_count cfg f + 2 ^ 32 - 1) % 2 ^ 32 := by
  simp only [ena_storage_remove_temp_detection]
  rw [ena_storage_temp_detections_count, uint32_read_write, Nat.mod_mod]

/-- C9: remove preserves order.  In a layout whose temporary-detection records
never cross an erase-block boundary (the record size divides the block size
and the start of the record array, as for the 32-byte records at offset 288 of
the spec's data model) and whose ring lies below `2 ^ 32`, for every state
with count `N ≤ TEMP_DETECTIONS_MAX` and every `k < N` (so `1 ≤ N`), after
`ena_storage_remove_temp_detection(k)` the count is `N - 1` and for every
`j < N - 1` `ena_storage_get_temp_detection(j)` returns the old record `j` if
`j < k` and the old record `j + 1` otherwise. -/
theorem ena_storage_remove_temp_detection_order (cfg : Config) (f : Flash) (N k : Nat)
    (out : Buffer)
    (hsz : cfg.sizeof_ena_temp_detection_t ∣ BLOCK_SIZE)
    (hst : cfg.sizeof_ena_temp_detection_t ∣ ENA_STORAGE_TEMP_DETECTIONS_START_ADDRESS cfg)
    (hfit : ENA_STORAGE_DETECTIONS_COUNT_ADDRESS cfg < 2 ^ 32)
    (hcount : ena_storage_temp_detections_count cfg f = N)
    (hNM : N ≤ cfg.ENA_STORAGE_TEMP_DETECTIONS_MAX) (hk : k < N) :
    ena_storage_temp_detections_count cfg (ena_storage_remove_temp_detection cfg f k) = N - 1 ∧
      ∀ j, j < N - 1 →
        ena_storage_get_temp_detection cfg (ena_storage_remove_temp_detection cfg f k) j out =
          if j < k then ena_storage_get_temp_detection cfg f j out
          else ena_storage_get_temp_detection cfg f (j + 1) out := by
  have hmax : ENA_STORAGE_TEMP_DETECTIONS_START_ADDRESS cfg +
      cfg.ENA_STORAGE_TEMP_DETECTIONS_MAX * cfg.sizeof_ena_temp_detection_t < 2 ^ 32 := by
    simp only [ENA_STORAGE_DETECTIONS_COUNT_ADDRESS] at hfit
    rw [Nat.mul_comm]
    exact hfit
  have hNsz := Nat.mul_le_mul_right cfg.sizeof_ena_temp_detection_t hNM
  have hsmall : ∀ i, i ≤ N →
      (ENA_STORAGE_TEMP_DETECTIONS_START_ADDRESS cfg + i * cfg.sizeof_ena_temp_detection_t)
        % 2 ^ 32 =
      ENA_STORAGE_TEMP_DETECTIONS_START_ADDRESS cfg + i * cfg.sizeof_ena_temp_detection_t := by
    intro i hi
    have := Nat.mul_le_mul_right cfg.sizeof_ena_temp_detection_t hi
    apply Nat.mod_eq_of_lt
    omega
  have hblk := aligned_record_in_block cfg.sizeof_ena_temp_detection_t
    (ENA_STORAGE_TEMP_DETECTIONS_START_ADDRESS cfg + k * cfg.sizeof_ena_temp_detection_t) hsz
    (Dvd.dvd.add hst (Dvd.intro_left k rfl))
  rw [← hsmall k (by omega)] at hblk
  constructor
  · have hlt : ena_storage_temp_detections_count cfg f < 2 ^ 32 := uint32_value_lt _
    rw [ena_storage_temp_detections_count_remove, hcount]
    rw [hcount] at hlt
    omega
  · intro j hj
    funext i
    have hgoal : ena_storage_get_temp_detection cfg (ena_storage_remove_temp_detection cfg f k)
        j out i =
        if j < k then ena_storage_get_temp_detection cfg f j out i
        else ena_storage_get_temp_detection cfg f (j + 1) out i := by
      simp only [ena_storage_get_temp_detection, ena_storage_read, esp_partition_read]
      by_cases hi : i < cfg.sizeof_ena_temp_detection_t
      · simp only [if_pos hi]
        rw [ena_storage_remove_temp_detection_apply cfg f k _ hblk, hcount,
          hsmall j (by omega), hsmall k (by omega), hsmall N (by omega),
          hsmall (j + 1) (by omega)]
        have hE : ENA_STORAGE_TEMP_DETECTIONS_START_ADDRESS cfg +
            N * cfg.sizeof_ena_temp_detection_t <
            ((ENA_STORAGE_TEMP_DETECTIONS_START_ADDRESS cfg +
              N * cfg.sizeof_ena_temp_detection_t) / BLOCK_SIZE + 1) * BLOCK_SIZE := by
          simp only [BLOCK_SIZE]
          omega
        have hS : ENA_STORAGE_TEMP_DETECTIONS_START_ADDRESS cfg =
            ENA_STORAGE_TEMP_DETECTIONS_COUNT_ADDRESS cfg + sizeof_uint32_t := rfl
        rw [if_neg (by omega)]
        by_cases hjk : j < k
        · have h1 := Nat.mul_le_mul_right cfg.sizeof_ena_temp_detection_t (Nat.succ_le_of_lt hjk)
          rw [Nat.succ_mul] at h1
          rw [if_pos hjk, if_neg (by omega)]
        · have h1 := Nat.mul_le_mul_right cfg.sizeof_ena_temp_detection_t (Nat.le_of_not_lt hjk)
          have h2 : (j + 1 + 1) * cfg.sizeof_ena_temp_detection_t ≤
              N * cfg.sizeof_ena_temp_detection_t :=
            Nat.mul_le_mul_right cfg.sizeof_ena_temp_detection_t (by omega)
          have h3 : (j + 1) * cfg.sizeof_ena_temp_detection_t =
              j * cfg.sizeof_ena_temp_detection_t + cfg.sizeof_ena_temp_detection_t :=
            Nat.succ_mul _ _
          rw [Nat.succ_mul, h3] at h2
          rw [if_neg hjk, if_pos (by omega), h3]
          congr 1
          omega
      · simp only [if_neg hi]
        split_ifs <;> rfl
    rw [hgoal]
    split_ifs <;> rfl

/-- Witness of C9: the spec's layout with capacity 1000, a partition holding
three distinct temporary detections, removal of the record at index 1; the
count becomes 2 and slot 1 then holds the old record 2. -/
theorem ena_storage_remove_temp_detection_order_witness :
    ena_storage_temp_detections_count (specConfig 1000)
        (ena_storage_remove_temp_detection (specConfig 1000) threeDetectionsFlash 1) = 3 - 1 ∧
      ena_storage_get_temp_detection (specConfig 1000)
          (ena_storage_remove_temp_detection (specConfig 1000) threeDetectionsFlash 1) 1
          malloc =
        if 1 < 1 then
          ena_storage_get_temp_detection (specConfig 1000) threeDetectionsFlash 1 malloc
        else ena_storage_get_temp_detection (specConfig 1000) threeDetectionsFlash (1 + 1)
          malloc :=
  ⟨(ena_storage_remove_temp_detection_order (specConfig 1000) threeDetectionsFlash 3 1 malloc
      (by decide) (by decide) (by decide) (by decide) (by decide) (by decide)).1,
    (ena_storage_remove_temp_detection_order (specConfig 1000) threeDetectionsFlash 3 1 malloc
      (by decide) (by decide) (by decide) (by decide) (by decide) (by decide)).2 1
      (by decide)⟩

/-- C10: remove and the confirmed-detection region.  With the spec's layout
and capacity 1000, on a partition whose temporary-detection counter is 1000
and whose confirmed-detection counter (offset 32288) is 5,
`ena_storage_remove_temp_detection(999)` shifts the whole rest of the
erase-block of the end address 32288 down by one record: the
confirmed-detection counter afterwards reads 0 (the old bytes of offset
32320), not 5. -/
theorem ena_storage_remove_temp_detection_changes_detections_count :
    ena_storage_temp_detections_count (specConfig 1000) (countersFlash 1000 5) = 1000 ∧
      ena_storage_detections_count (specConfig 1000) (countersFlash 1000 5) = 5 ∧
      ena_storage_detections_count (specConfig 1000)
        (ena_storage_remove_temp_detection (specConfig 1000) (countersFlash 1000 5) 999) = 0 := by
  refine ⟨by decide, by decide, ?_⟩
  simp only [ena_storage_detections_count, uint32_value, ena_storage_read, esp_partition_read,
    ena_storage_remove_temp_detection_apply (specConfig 1000) (countersFlash 1000 5) 999 _
      (by decide)]
  decide

/-- C20: exact effect of block-local shift-delete.  When the removed range
`[address, address + size)` does not cross an erase-block boundary, with `E`
the end of the erase-block that contains `end_address`, the byte at `p` after
`ena_storage_shift_delete(address, end_address, size)` is the old byte at
`p + size` for `address ≤ p < E - size`, and the old byte at `p` for
`p < address` and for `p ≥ E - size`. -/
theorem ena_storage_shift_delete_block_local_effect (f : Flash)
    (address end_address size p : Nat) (hle : address ≤ end_address)
    (hblk : address + size ≤ (address / BLOCK_SIZE + 1) * BLOCK_SIZE) :
    (address ≤ p ∧ p < (end_address / BLOCK_SIZE + 1) * BLOCK_SIZE - size →
        ena_storage_shift_delete f address end_address size p = f (p + size)) ∧
      (p < address ∨ (end_address / BLOCK_SIZE + 1) * BLOCK_SIZE - size ≤ p →
        ena_storage_shift_delete f address end_address size p = f p) := by
  have hE : address < (end_address / BLOCK_SIZE + 1) * BLOCK_SIZE := by
    simp only [BLOCK_SIZE]
    omega
  constructor
  · intro hp
    rw [ena_storage_shift_delete_local_apply f address end_address size p hblk, if_pos hp]
  · intro hp
    rw [ena_storage_shift_delete_local_apply f address end_address size p hblk,
      if_neg (by omega)]

/-- Witness of C20: deleting 4 bytes at offset 0 with end address 8 moves the
byte of offset 12 to offset 8 and keeps the byte at offset 4092. -/
theorem ena_storage_shift_delete_block_local_effect_witness :
    ena_storage_shift_delete offsetFlash 0 8 4 8 = offsetFlash (8 + 4) ∧
      ena_storage_shift_delete offsetFlash 0 8 4 4092 = offsetFlash 4092 :=
  ⟨(ena_storage_shift_delete_block_local_effect offsetFlash 0 8 4 8 (by decide)
      (by decide)).1 (by decide),
    (ena_storage_shift_delete_block_local_effect offsetFlash 0 8 4 4092 (by decide)
      (by decide)).2 (by decide)⟩

/-! ## Key log: effect of one write -/

/-- With a capacity of at most 256 the 8-bit slot index of the key log is
`count mod capacity`, and the slot lies inside the key log. -/
theorem tek_slot_address (cfg : Config) (c : Nat)
    (hP0 : 0 < cfg.ENA_STORAGE_TEK_STORE_PERIOD) (hP : cfg.ENA_STORAGE_TEK_STORE_PERIOD ≤ 256)
    (hfit : ENA_STORAGE_TEMP_DETECTIONS_COUNT_ADDRESS cfg < 2 ^ 32) :
    (ENA_STORAGE_TEK_START_ADDRESS +
        c % cfg.ENA_STORAGE_TEK_STORE_PERIOD % 256 * cfg.sizeof_ena_tek_t) % 2 ^ 32 =
      ENA_STORAGE_TEK_START_ADDRESS + c % cfg.ENA_STORAGE_TEK_STORE_PERIOD * cfg.sizeof_ena_tek_t ∧
    ENA_STORAGE_TEK_START_ADDRESS + c % cfg.ENA_STORAGE_TEK_STORE_PERIOD * cfg.sizeof_ena_tek_t +
        cfg.sizeof_ena_tek_t ≤ ENA_STORAGE_TEMP_DETECTIONS_COUNT_ADDRESS cfg := by
  have h1 := Nat.mod_lt c hP0
  have h2 : c % cfg.ENA_STORAGE_TEK_STORE_PERIOD % 256 = c % cfg.ENA_STORAGE_TEK_STORE_PERIOD :=
    Nat.mod_eq_of_lt (by omega)
  have h3 := Nat.mul_le_mul_right cfg.sizeof_ena_tek_t (Nat.succ_le_of_lt h1)
  rw [Nat.succ_mul] at h3
  have h4 : cfg.sizeof_ena_tek_t * cfg.ENA_STORAGE_TEK_STORE_PERIOD =
      cfg.ENA_STORAGE_TEK_STORE_PERIOD * cfg.sizeof_ena_tek_t := Nat.mul_comm _ _
  rw [h2]
  simp only [ENA_STORAGE_TEMP_DETECTIONS_COUNT_ADDRESS] at hfit ⊢
  constructor
  · apply Nat.mod_eq_of_lt
    omega
  · omega

/-- Pointwise effect of `ena_storage_write_tek` for a capacity of at most 256:
the counter bytes hold the incremented counter, slot `count mod capacity`
holds the record, every other byte is kept. -/
theorem ena_storage_write_tek_slot (cfg : Config) (f : Flash) (tek : Buffer) (p : Nat)
    (hP0 : 0 < cfg.ENA_STORAGE_TEK_STORE_PERIOD) (hP : cfg.ENA_STORAGE_TEK_STORE_PERIOD ≤ 256)
    (hfit : ENA_STORAGE_TEMP_DETECTIONS_COUNT_ADDRESS cfg < 2 ^ 32) :
    ena_storage_write_tek cfg f tek p =
      if p < ENA_STORAGE_TEK_START_ADDRESS then
        uint32_bytes ((read_tek_count f + 1) % 2 ^ 32) p
      else if
          ENA_STORAGE_TEK_START_ADDRESS +
              read_tek_count f % cfg.ENA_STORAGE_TEK_STORE_PERIOD * cfg.sizeof_ena_tek_t ≤ p ∧
          p < ENA_STORAGE_TEK_START_ADDRESS +
              read_tek_count f % cfg.ENA_STORAGE_TEK_STORE_PERIOD * cfg.sizeof_ena_tek_t +
              cfg.sizeof_ena_tek_t then
        tek (p - (ENA_STORAGE_TEK_START_ADDRESS +
              read_tek_count f % cfg.ENA_STORAGE_TEK_STORE_PERIOD * cfg.sizeof_ena_tek_t))
      else f p := by
  rw [ena_storage_write_tek_apply]
  simp only [(tek_slot_address cfg (read_tek_count f) hP0 hP hfit).1]
  simp only [ENA_STORAGE_TEK_START_ADDRESS, ENA_STORAGE_TEK_COUNT_ADDRESS, sizeof_uint32_t]
  by_cases h0 : p < 4
  · have h0' : p < 0 + 4 := by omega
    have h1 : 0 ≤ p ∧ p < 0 + 4 := by omega
    rw [if_pos h1, if_pos h0']
    rfl
  · have h0' : ¬ p < 0 + 4 := by omega
    have h1 : ¬ (0 ≤ p ∧ p < 0 + 4) := by omega
    rw [if_neg h1, if_neg h0']

/-- C11: key write.  With `TEK_STORE_PERIOD = 14` (and a key log that lies
below `2 ^ 32`), for every state with key count `c < 2 ^ 32 - 1` and every key
record `K`, after `ena_storage_write_tek(K)` slot `c mod 14` reads back as
`K`, the persisted count is `c + 1`, and every byte from the start of the
record array on that is outside slot `c mod 14` (every other key slot, the
temporary-detection region and the confirmed-detection region) is unchanged. -/
theorem ena_storage_write_tek_effect (cfg : Config) (f : Flash) (K out : Buffer) (c : Nat)
    (hP : cfg.ENA_STORAGE_TEK_STORE_PERIOD = 14)
    (hfit : ENA_STORAGE_TEMP_DETECTIONS_COUNT_ADDRESS cfg < 2 ^ 32)
    (hc : read_tek_count f = c) (hlt : c < 2 ^ 32 - 1) :
    ena_storage_read (ena_storage_write_tek cfg f K)
        (ENA_STORAGE_TEK_START_ADDRESS + c % 14 * cfg.sizeof_ena_tek_t) out
        cfg.sizeof_ena_tek_t =
      (fun i => if i < cfg.sizeof_ena_tek_t then K i else out i) ∧
    read_tek_count (ena_storage_write_tek cfg f K) = c + 1 ∧
    ∀ p, ENA_STORAGE_TEK_START_ADDRESS ≤ p →
      (p < ENA_STORAGE_TEK_START_ADDRESS + c % 14 * cfg.sizeof_ena_tek_t ∨
        ENA_STORAGE_TEK_START_ADDRESS + (c % 14 + 1) * cfg.sizeof_ena_tek_t ≤ p) →
      ena_storage_write_tek cfg f K p = f p := by
  have hP0 : 0 < cfg.ENA_STORAGE_TEK_STORE_PERIOD := by omega
  have hP256 : cfg.ENA_STORAGE_TEK_STORE_PERIOD ≤ 256 := by omega
  refine ⟨?_, ?_, ?_⟩
  · funext i
    simp only [ena_storage_read, esp_partition_read]
    by_cases hi : i < cfg.sizeof_ena_tek_t
    · rw [if_pos hi, if_pos hi, ena_storage_write_tek_slot cfg f K _ hP0 hP256 hfit, hc, hP]
      have hS : ENA_STORAGE_TEK_START_ADDRESS = 4 := rfl
      rw [if_neg (by omega), if_pos (by omega)]
      congr 1
      omega
    · rw [if_neg hi, if_neg hi]
  · rw [read_tek_count_write_tek, hc]
    apply Nat.mod_eq_of_lt
    omega
  · intro p hp hout
    rw [ena_storage_write_tek_slot cfg f K _ hP0 hP256 hfit, hc, hP]
    rw [Nat.succ_mul] at hout
    rw [if_neg (by omega), if_neg (by omega)]

/-- Witness of C11: the spec's layout, a partition of zeros (count 0) and a
record of ones; slot 0 then reads back as the record and the count is 1. -/
theorem ena_storage_write_tek_effect_witness :
    ena_storage_read (ena_storage_write_tek (specConfig 1000) zeroFlash (constRecord 1))
        (ENA_STORAGE_TEK_START_ADDRESS + 0 % 14 * (specConfig 1000).sizeof_ena_tek_t) malloc
        (specConfig 1000).sizeof_ena_tek_t =
      (fun i => if i < (specConfig 1000).sizeof_ena_tek_t then constRecord 1 i else malloc i) ∧
    read_tek_count (ena_storage_write_tek (specConfig 1000) zeroFlash (constRecord 1)) = 0 + 1 :=
  ⟨(ena_storage_write_tek_effect (specConfig 1000) zeroFlash (constRecord 1) malloc 0
      (by decide) (by decide) (by decide) (by decide)).1,
    (ena_storage_write_tek_effect (specConfig 1000) zeroFlash (constRecord 1) malloc 0
      (by decide) (by decide) (by decide) (by decide)).2.1⟩

/-! ## Erase functions -/

/-- Every byte of a stored zero counter is zero. -/
theorem uint32_bytes_zero (i : Nat) : uint32_bytes 0 i = 0 := by
  simp only [uint32_bytes, Nat.zero_div]
  split_ifs <;> rfl

/-- The value of a counter read from the partition, in terms of its bytes. -/
theorem uint32_read_value (f : Flash) (address : Nat) (b : Buffer) :
    uint32_value (ena_storage_read f address b sizeof_uint32_t) =
      (f (address + 0)).val + 256 * (f (address + 1)).val + 65536 * (f (address + 2)).val +
        16777216 * (f (address + 3)).val := by
  simp only [uint32_value, ena_storage_read, esp_partition_read, sizeof_uint32_t]
  rw [if_pos (by decide), if_pos (by decide), if_pos (by decide), if_pos (by decide)]

/-- A counter whose four bytes are zero reads 0. -/
theorem uint32_read_zero (f : Flash) (address : Nat) (b : Buffer)
    (h : ∀ p, address ≤ p → p < address + 4 → f p = 0) :
    uint32_value (ena_storage_read f address b sizeof_uint32_t) = 0 := by
  have h0 := h (address + 0) (by omega) (by omega)
  have h1 := h (address + 1) (by omega) (by omega)
  have h2 := h (address + 2) (by omega) (by omega)
  have h3 := h (address + 3) (by omega) (by omega)
  rw [uint32_read_value, h0, h1, h2, h3]
  rfl

/-- A counter that reads 0 has four zero bytes. -/
theorem uint32_read_eq_zero (f : Flash) (address : Nat) (b : Buffer)
    (h : uint32_value (ena_storage_read f address b sizeof_uint32_t) = 0) :
    ∀ p, address ≤ p → p < address + 4 → f p = 0 := by
  rw [uint32_read_value] at h
  intro p hp1 hp2
  have hcase : p = address + 0 ∨ p = address + 1 ∨ p = address + 2 ∨ p = address + 3 := by
    omega
  rcases hcase with e | e | e | e <;> rw [e] <;> apply Fin.ext <;> simp only [Fin.val_zero] <;>
    omega

/-- Pointwise effect of `ena_storage_erase`: the three counters are zero, every
other byte of the partition is erased, every byte behind the partition is
kept. -/
theorem ena_storage_erase_apply (cfg : Config) (partition_size : Nat) (f : Flash) (p : Nat) :
    ena_storage_erase cfg partition_size f p =
      if ENA_STORAGE_DETECTIONS_COUNT_ADDRESS cfg ≤ p ∧
          p < ENA_STORAGE_DETECTIONS_COUNT_ADDRESS cfg + 4 then 0
      else if ENA_STORAGE_TEMP_DETECTIONS_COUNT_ADDRESS cfg ≤ p ∧
          p < ENA_STORAGE_TEMP_DETECTIONS_COUNT_ADDRESS cfg + 4 then 0
      else if p < 4 then 0
      else if p < partition_size then 255
      else f p := by
  simp only [ena_storage_erase]
  rw [ena_storage_write_apply, ena_storage_write_apply, ena_storage_write_apply]
  simp only [uint32_bytes_zero, esp_partition_erase_range, ENA_STORAGE_TEK_COUNT_ADDRESS,
    sizeof_uint32_t, Nat.zero_le, true_and, Nat.zero_add]

/-- The temporary-detection counter starts at or after the key-log start, and
the confirmed-detection counter starts after the temporary-detection counter. -/
theorem counter_addresses_ordered (cfg : Config) :
    4 ≤ ENA_STORAGE_TEMP_DETECTIONS_COUNT_ADDRESS cfg ∧
      ENA_STORAGE_TEMP_DETECTIONS_COUNT_ADDRESS cfg + 4 ≤
        ENA_STORAGE_DETECTIONS_COUNT_ADDRESS cfg := by
  simp only [ENA_STORAGE_DETECTIONS_COUNT_ADDRESS, ENA_STORAGE_TEMP_DETECTIONS_START_ADDRESS,
    ENA_STORAGE_TEMP_DETECTIONS_COUNT_ADDRESS, ENA_STORAGE_TEK_START_ADDRESS,
    ENA_STORAGE_TEK_COUNT_ADDRESS, sizeof_uint32_t]
  omega

/-- C13: full erase resets everything.  For every partition content (and every
partition size), after `ena_storage_erase` the temporary-detection count and
the confirmed-detection count are 0, the key count is 0, and
`ena_storage_read_last_tek` returns 0 and leaves its output argument as it
was. -/
theorem ena_storage_erase_resets (cfg : Config) (partition_size : Nat) (f : Flash)
    (out : Buffer) :
    ena_storage_temp_detections_count cfg (ena_storage_erase cfg partition_size f) = 0 ∧
      ena_storage_detections_count cfg (ena_storage_erase cfg partition_size f) = 0 ∧
      read_tek_count (ena_storage_erase cfg partition_size f) = 0 ∧
      ena_storage_read_last_tek cfg (ena_storage_erase cfg partition_size f) out = (0, out) := by
  have hord := counter_addresses_ordered cfg
  have htek : read_tek_count (ena_storage_erase cfg partition_size f) = 0 := by
    apply uint32_read_zero
    intro p hp1 hp2
    simp only [ENA_STORAGE_TEK_COUNT_ADDRESS] at hp1 hp2
    rw [ena_storage_erase_apply]
    split_ifs <;> rfl
  refine ⟨?_, ?_, htek, ?_⟩
  · apply uint32_read_zero
    intro p hp1 hp2
    rw [ena_storage_erase_apply]
    split_ifs <;> first | rfl | (exfalso; omega)
  · apply uint32_read_zero
    intro p hp1 hp2
    rw [ena_storage_erase_apply]
    split_ifs <;> first | rfl | (exfalso; omega)
  · simp only [ena_storage_read_last_tek, htek]
    rfl

/-- Pointwise effect of `ena_storage_erase_tek`. -/
theorem ena_storage_erase_tek_apply (cfg : Config) (f : Flash) (p : Nat) :
    ena_storage_erase_tek cfg f p =
      if p < (sizeof_uint32_t +
          (if read_tek_count f < cfg.ENA_STORAGE_TEK_STORE_PERIOD then read_tek_count f % 256
            else cfg.ENA_STORAGE_TEK_STORE_PERIOD % 256) * cfg.sizeof_ena_tek_t) % 2 ^ 32
      then 0 else f p := by
  simp only [ena_storage_erase_tek]
  rw [ena_storage_write_apply]
  simp only [ENA_STORAGE_TEK_COUNT_ADDRESS, calloc, Nat.zero_le, true_and, Nat.zero_add]

/-- Pointwise effect of `ena_storage_erase_temporary_detection`. -/
theorem ena_storage_erase_temporary_detection_apply (cfg : Config) (f : Flash) (p : Nat) :
    ena_storage_erase_temporary_detection cfg f p =
      if ENA_STORAGE_TEMP_DETECTIONS_COUNT_ADDRESS cfg ≤ p ∧
          p < ENA_STORAGE_TEMP_DETECTIONS_COUNT_ADDRESS cfg + (sizeof_uint32_t +
            (if ena_storage_temp_detections_count cfg f < cfg.ENA_STORAGE_TEMP_DETECTIONS_MAX
              then ena_storage_temp_detections_count cfg f
              else cfg.ENA_STORAGE_TEMP_DETECTIONS_MAX % 2 ^ 32) *
              cfg.sizeof_ena_temp_detection_t) % 2 ^ 32
      then 0 else f p := by
  simp only [ena_storage_erase_temporary_detection, ena_storage_temp_detections_count]
  rw [ena_storage_write_apply]
  simp only [calloc]

/-- Pointwise effect of `ena_storage_erase_detection`. -/
theorem ena_storage_erase_detection_apply (cfg : Config) (f : Flash) (p : Nat) :
    ena_storage_erase_detection cfg f p =
      if ENA_STORAGE_DETECTIONS_COUNT_ADDRESS cfg ≤ p ∧
          p < ENA_STORAGE_DETECTIONS_COUNT_ADDRESS cfg + (sizeof_uint32_t +
            ena_storage_detections_count cfg f * cfg.sizeof_ena_detection_t) % 2 ^ 32
      then 0 else f p := by
  simp only [ena_storage_erase_detection, ena_storage_detections_count]
  rw [ena_storage_write_apply]
  simp only [calloc]

/-- The number of key slots that `ena_storage_erase_tek` zeroes, for a capacity
below 256: `min(count, capacity)` slots, without wrap-around of the size. -/
theorem erase_tek_size (cfg : Config) (c : Nat)
    (hP : cfg.ENA_STORAGE_TEK_STORE_PERIOD < 256)
    (hfit : ENA_STORAGE_TEMP_DETECTIONS_COUNT_ADDRESS cfg < 2 ^ 32) :
    (sizeof_uint32_t +
        (if c < cfg.ENA_STORAGE_TEK_STORE_PERIOD then c % 256
          else cfg.ENA_STORAGE_TEK_STORE_PERIOD % 256) * cfg.sizeof_ena_tek_t) % 2 ^ 32 =
      ENA_STORAGE_TEK_START_ADDRESS +
        min c cfg.ENA_STORAGE_TEK_STORE_PERIOD * cfg.sizeof_ena_tek_t := by
  have hst : (if c < cfg.ENA_STORAGE_TEK_STORE_PERIOD then c % 256
      else cfg.ENA_STORAGE_TEK_STORE_PERIOD % 256) = min c cfg.ENA_STORAGE_TEK_STORE_PERIOD := by
    split_ifs with h
    · rw [Nat.mod_eq_of_lt (by omega), Nat.min_eq_left (by omega)]
    · rw [Nat.mod_eq_of_lt hP, Nat.min_eq_right (by omega)]
  have hle := Nat.mul_le_mul_right cfg.sizeof_ena_tek_t
    (Nat.min_le_right c cfg.ENA_STORAGE_TEK_STORE_PERIOD)
  have hcomm : cfg.sizeof_ena_tek_t * cfg.ENA_STORAGE_TEK_STORE_PERIOD =
      cfg.ENA_STORAGE_TEK_STORE_PERIOD * cfg.sizeof_ena_tek_t := Nat.mul_comm _ _
  rw [hst]
  simp only [ENA_STORAGE_TEMP_DETECTIONS_COUNT_ADDRESS, ENA_STORAGE_TEK_START_ADDRESS,
    ENA_STORAGE_TEK_COUNT_ADDRESS, sizeof_uint32_t] at hfit ⊢
  apply Nat.mod_eq_of_lt
  omega

/-- The number of slots that `ena_storage_erase_temporary_detection` zeroes:
`min(count, capacity)` slots, without wrap-around of the size. -/
theorem erase_temporary_detection_size (cfg : Config) (c : Nat)
    (hfit : ENA_STORAGE_DETECTIONS_COUNT_ADDRESS cfg < 2 ^ 32) :
    (sizeof_uint32_t +
        (if c < cfg.ENA_STORAGE_TEMP_DETECTIONS_MAX then c
          else cfg.ENA_STORAGE_TEMP_DETECTIONS_MAX % 2 ^ 32) *
          cfg.sizeof_ena_temp_detection_t) % 2 ^ 32 =
      sizeof_uint32_t +
        min c cfg.ENA_STORAGE_TEMP_DETECTIONS_MAX * cfg.sizeof_ena_temp_detection_t := by
  have hcomm : cfg.sizeof_ena_temp_detection_t * cfg.ENA_STORAGE_TEMP_DETECTIONS_MAX =
      cfg.ENA_STORAGE_TEMP_DETECTIONS_MAX * cfg.sizeof_ena_temp_detection_t := Nat.mul_comm _ _
  have hle := Nat.mul_le_mul_right cfg.sizeof_ena_temp_detection_t
    (Nat.min_le_right c cfg.ENA_STORAGE_TEMP_DETECTIONS_MAX)
  have hst : (if c < cfg.ENA_STORAGE_TEMP_DETECTIONS_MAX then c
      else cfg.ENA_STORAGE_TEMP_DETECTIONS_MAX % 2 ^ 32) * cfg.sizeof_ena_temp_detection_t =
      min c cfg.ENA_STORAGE_TEMP_DETECTIONS_MAX * cfg.sizeof_ena_temp_detection_t := by
    split_ifs with h
    · rw [Nat.min_eq_left (by omega)]
    · rw [Nat.min_eq_right (by omega)]
      rcases Nat.eq_zero_or_pos cfg.sizeof_ena_temp_detection_t with hz | hpos
      · rw [hz, Nat.mul_zero, Nat.mul_zero]
      · have hM : cfg.ENA_STORAGE_TEMP_DETECTIONS_MAX ≤
            cfg.ENA_STORAGE_TEMP_DETECTIONS_MAX * cfg.sizeof_ena_temp_detection_t :=
          Nat.le_mul_of_pos_right _ hpos
        simp only [ENA_STORAGE_DETECTIONS_COUNT_ADDRESS] at hfit
        rw [Nat.mod_eq_of_lt (by omega)]
  rw [hst]
  clear hst
  have hS := (counter_addresses_ordered cfg).1
  simp only [ENA_STORAGE_DETECTIONS_COUNT_ADDRESS, ENA_STORAGE_TEMP_DETECTIONS_START_ADDRESS,
    sizeof_uint32_t] at hfit ⊢
  generalize min c cfg.ENA_STORAGE_TEMP_DETECTIONS_MAX * cfg.sizeof_ena_temp_detection_t = m
    at hle ⊢
  apply Nat.mod_eq_of_lt
  omega

/-- C14: bounded-region erase zeroes only the occupied prefix.  For a key-log
capacity that fits the 8-bit variable `stored` (14 in the spec) and regions
that lie below `2 ^ 32`, for every state: after `ena_storage_erase_tek` the key
count is 0 and the partition differs from the old one exactly in that the
counter and slots `0 .. min(c, TEK_STORE_PERIOD) - 1` are zero; after
`ena_storage_erase_temporary_detection` the temporary-detection count is 0 and
the partition differs from the old one exactly in that the counter and slots
`0 .. min(c, TEMP_DETECTIONS_MAX) - 1` are zero. -/
theorem bounded_region_erase_zeroes_occupied_slots (cfg : Config) (f : Flash)
    (hP : cfg.ENA_STORAGE_TEK_STORE_PERIOD < 256)
    (hfit : ENA_STORAGE_DETECTIONS_COUNT_ADDRESS cfg < 2 ^ 32) :
    (read_tek_count (ena_storage_erase_tek cfg f) = 0 ∧
      ena_storage_erase_tek cfg f = fun p =>
        if p < ENA_STORAGE_TEK_START_ADDRESS +
            min (read_tek_count f) cfg.ENA_STORAGE_TEK_STORE_PERIOD * cfg.sizeof_ena_tek_t
        then 0 else f p) ∧
    (ena_storage_temp_detections_count cfg (ena_storage_erase_temporary_detection cfg f) = 0 ∧
      ena_storage_erase_temporary_detection cfg f = fun p =>
        if ENA_STORAGE_TEMP_DETECTIONS_COUNT_ADDRESS cfg ≤ p ∧
            p < ENA_STORAGE_TEMP_DETECTIONS_START_ADDRESS cfg +
              min (ena_storage_temp_detections_count cfg f) cfg.ENA_STORAGE_TEMP_DETECTIONS_MAX *
                cfg.sizeof_ena_temp_detection_t
        then 0 else f p) := by
  have hord := counter_addresses_ordered cfg
  have hfit1 : ENA_STORAGE_TEMP_DETECTIONS_COUNT_ADDRESS cfg < 2 ^ 32 := by omega
  have htek : ∀ p, ena_storage_erase_tek cfg f p =
      if p < ENA_STORAGE_TEK_START_ADDRESS +
          min (read_tek_count f) cfg.ENA_STORAGE_TEK_STORE_PERIOD * cfg.sizeof_ena_tek_t
      then 0 else f p := by
    intro p
    rw [ena_storage_erase_tek_apply, erase_tek_size cfg _ hP hfit1]
  have htemp : ∀ p, ena_storage_erase_temporary_detection cfg f p =
      if ENA_STORAGE_TEMP_DETECTIONS_COUNT_ADDRESS cfg ≤ p ∧
          p < ENA_STORAGE_TEMP_DETECTIONS_START_ADDRESS cfg +
            min (ena_storage_temp_detections_count cfg f) cfg.ENA_STORAGE_TEMP_DETECTIONS_MAX *
              cfg.sizeof_ena_temp_detection_t
      then 0 else f p := by
    intro p
    rw [ena_storage_erase_temporary_detection_apply,
      erase_temporary_detection_size cfg _ hfit]
    simp only [ENA_STORAGE_TEMP_DETECTIONS_START_ADDRESS, Nat.add_assoc]
  refine ⟨⟨?_, funext htek⟩, ⟨?_, funext htemp⟩⟩
  · apply uint32_read_zero
    intro p hp1 hp2
    rw [htek, if_pos]
    simp only [ENA_STORAGE_TEK_COUNT_ADDRESS, ENA_STORAGE_TEK_START_ADDRESS,
      sizeof_uint32_t] at hp2 ⊢
    omega
  · apply uint32_read_zero
    intro p hp1 hp2
    rw [htemp, if_pos]
    simp only [ENA_STORAGE_TEMP_DETECTIONS_START_ADDRESS, sizeof_uint32_t]
    omega

/-- Witness of C14: the spec's layout with capacity 1000 and a partition whose
byte at offset `p` is `p mod 256`. -/
theorem bounded_region_erase_zeroes_occupied_slots_witness :
    read_tek_count (ena_storage_erase_tek (specConfig 1000) offsetFlash) = 0 ∧
      ena_storage_temp_detections_count (specConfig 1000)
        (ena_storage_erase_temporary_detection (specConfig 1000) offsetFlash) = 0 :=
  ⟨(bounded_region_erase_zeroes_occupied_slots (specConfig 1000) offsetFlash (by decide)
      (by decide)).1.1,
    (bounded_region_erase_zeroes_occupied_slots (specConfig 1000) offsetFlash (by decide)
      (by decide)).2.1⟩

/-- On a state whose key count is 0, `ena_storage_erase_tek` rewrites the four
zero bytes of the counter and nothing else. -/
theorem ena_storage_erase_tek_of_empty (cfg : Config) (f : Flash)
    (h : read_tek_count f = 0) : ena_storage_erase_tek cfg f = f := by
  funext p
  have hz := uint32_read_eq_zero f ENA_STORAGE_TEK_COUNT_ADDRESS (uint32_bytes 0) h p
  rw [ena_storage_erase_tek_apply, h]
  have hst : (if 0 < cfg.ENA_STORAGE_TEK_STORE_PERIOD then 0 % 256
      else cfg.ENA_STORAGE_TEK_STORE_PERIOD % 256) = 0 := by
    split_ifs with h0
    · rfl
    · have : cfg.ENA_STORAGE_TEK_STORE_PERIOD = 0 := by omega
      rw [this]
  rw [hst]
  simp only [ENA_STORAGE_TEK_COUNT_ADDRESS, sizeof_uint32_t, Nat.zero_mul, Nat.add_zero] at hz ⊢
  by_cases hp : p < 4 % 2 ^ 32
  · rw [if_pos hp]
    exact (hz (by omega) (by omega)).symm
  · rw [if_neg hp]

/-- On a state whose temporary-detection count is 0,
`ena_storage_erase_temporary_detection` changes nothing. -/
theorem ena_storage_erase_temporary_detection_of_empty (cfg : Config) (f : Flash)
    (h : ena_storage_temp_detections_count cfg f = 0) :
    ena_storage_erase_temporary_detection cfg f = f := by
  funext p
  have hz := uint32_read_eq_zero f (ENA_STORAGE_TEMP_DETECTIONS_COUNT_ADDRESS cfg)
    (uint32_bytes 0) h p
  rw [ena_storage_erase_temporary_detection_apply, h]
  have hst : (if 0 < cfg.ENA_STORAGE_TEMP_DETECTIONS_MAX then 0
      else cfg.ENA_STORAGE_TEMP_DETECTIONS_MAX % 2 ^ 32) = 0 := by
    split_ifs with h0
    · rfl
    · have : cfg.ENA_STORAGE_TEMP_DETECTIONS_MAX = 0 := by omega
      rw [this, Nat.zero_mod]
  rw [hst]
  simp only [sizeof_uint32_t, Nat.zero_mul, Nat.add_zero] at hz ⊢
  by_cases hp : ENA_STORAGE_TEMP_DETECTIONS_COUNT_ADDRESS cfg ≤ p ∧
      p < ENA_STORAGE_TEMP_DETECTIONS_COUNT_ADDRESS cfg + 4 % 2 ^ 32
  · rw [if_pos hp]
    exact (hz (by omega) (by omega)).symm
  · rw [if_neg hp]

/-- On a state whose confirmed-detection count is 0,
`ena_storage_erase_detection` changes nothing. -/
theorem ena_storage_erase_detection_of_empty (cfg : Config) (f : Flash)
    (h : ena_storage_detections_count cfg f = 0) :
    ena_storage_erase_detection cfg f = f := by
  funext p
  have hz := uint32_read_eq_zero f (ENA_STORAGE_DETECTIONS_COUNT_ADDRESS cfg)
    (uint32_bytes 0) h p
  rw [ena_storage_erase_detection_apply, h]
  simp only [sizeof_uint32_t, Nat.zero_mul, Nat.add_zero] at hz ⊢
  by_cases hp : ENA_STORAGE_DETECTIONS_COUNT_ADDRESS cfg ≤ p ∧
      p < ENA_STORAGE_DETECTIONS_COUNT_ADDRESS cfg + 4 % 2 ^ 32
  · rw [if_pos hp]
    exact (hz (by omega) (by omega)).symm
  · rw [if_neg hp]

/-- After `ena_storage_erase_tek` the key count is 0 (capacity below 256, key
log below `2 ^ 32`). -/
theorem read_tek_count_erase_tek (cfg : Config) (f : Flash)
    (hP : cfg.ENA_STORAGE_TEK_STORE_PERIOD < 256)
    (hfit : ENA_STORAGE_TEMP_DETECTIONS_COUNT_ADDRESS cfg < 2 ^ 32) :
    read_tek_count (ena_storage_erase_tek cfg f) = 0 := by
  apply uint32_read_zero
  intro p hp1 hp2
  rw [ena_storage_erase_tek_apply, erase_tek_size cfg _ hP hfit, if_pos]
  simp only [ENA_STORAGE_TEK_COUNT_ADDRESS, ENA_STORAGE_TEK_START_ADDRESS,
    sizeof_uint32_t] at hp2 ⊢
  omega

/-- After `ena_storage_erase_temporary_detection` the temporary-detection
count is 0 (ring below `2 ^ 32`). -/
theorem ena_storage_temp_detections_count_erase (cfg : Config) (f : Flash)
    (hfit : ENA_STORAGE_DETECTIONS_COUNT_ADDRESS cfg < 2 ^ 32) :
    ena_storage_temp_detections_count cfg (ena_storage_erase_temporary_detection cfg f) = 0 := by
  apply uint32_read_zero
  intro p hp1 hp2
  rw [ena_storage_erase_temporary_detection_apply, erase_temporary_detection_size cfg _ hfit,
    if_pos]
  simp only [sizeof_uint32_t]
  omega

/-- After `ena_storage_erase_detection` the confirmed-detection count is 0,
when the size of the occupied part does not wrap around. -/
theorem ena_storage_detections_count_erase (cfg : Config) (f : Flash)
    (hfit : sizeof_uint32_t + ena_storage_detections_count cfg f * cfg.sizeof_ena_detection_t
      < 2 ^ 32) :
    ena_storage_detections_count cfg (ena_storage_erase_detection cfg f) = 0 := by
  apply uint32_read_zero
  intro p hp1 hp2
  rw [ena_storage_erase_detection_apply, Nat.mod_eq_of_lt hfit, if_pos]
  simp only [sizeof_uint32_t]
  omega

/-- C15: idempotent erase.  For each of `ena_storage_erase_tek`,
`ena_storage_erase_temporary_detection` and `ena_storage_erase_detection`,
on every state in which the count of that region is 0 the erase returns the
partition unchanged (so the count is still 0, and erasing twice gives the same
state as erasing once).  Moreover, from an arbitrary state, erasing twice
gives the same state as erasing once, for the two bounded regions whenever the
key-log capacity is below 256 and the regions lie below `2 ^ 32`, and for the
confirmed detections whenever the size of the occupied part does not wrap. -/
theorem region_erase_idempotent (cfg : Config) (f : Flash) :
    (read_tek_count f = 0 →
      ena_storage_erase_tek cfg f = f ∧ read_tek_count (ena_storage_erase_tek cfg f) = 0 ∧
        ena_storage_erase_tek cfg (ena_storage_erase_tek cfg f) = ena_storage_erase_tek cfg f) ∧
    (ena_storage_temp_detections_count cfg f = 0 →
      ena_storage_erase_temporary_detection cfg f = f ∧
        ena_storage_temp_detections_count cfg (ena_storage_erase_temporary_detection cfg f) = 0 ∧
        ena_storage_erase_temporary_detection cfg (ena_storage_erase_temporary_detection cfg f) =
          ena_storage_erase_temporary_detection cfg f) ∧
    (ena_storage_detections_count cfg f = 0 →
      ena_storage_erase_detection cfg f = f ∧
        ena_storage_detections_count cfg (ena_storage_erase_detection cfg f) = 0 ∧
        ena_storage_erase_detection cfg (ena_storage_erase_detection cfg f) =
          ena_storage_erase_detection cfg f) ∧
    (cfg.ENA_STORAGE_TEK_STORE_PERIOD < 256 →
      ENA_STORAGE_DETECTIONS_COUNT_ADDRESS cfg < 2 ^ 32 →
      ena_storage_erase_tek cfg (ena_storage_erase_tek cfg f) = ena_storage_erase_tek cfg f ∧
        ena_storage_erase_temporary_detection cfg (ena_storage_erase_temporary_detection cfg f) =
          ena_storage_erase_temporary_detection cfg f) ∧
    (sizeof_uint32_t + ena_storage_detections_count cfg f * cfg.sizeof_ena_detection_t < 2 ^ 32 →
      ena_storage_erase_detection cfg (ena_storage_erase_detection cfg f) =
        ena_storage_erase_detection cfg f) := by
  refine ⟨?_, ?_, ?_, ?_, ?_⟩
  · intro h
    have e := ena_storage_erase_tek_of_empty cfg f h
    refine ⟨e, ?_, ?_⟩
    · rw [e, h]
    · rw [e, e]
  · intro h
    have e := ena_storage_erase_temporary_detection_of_empty cfg f h
    refine ⟨e, ?_, ?_⟩
    · rw [e, h]
    · rw [e, e]
  · intro h
    have e := ena_storage_erase_detection_of_empty cfg f h
    refine ⟨e, ?_, ?_⟩
    · rw [e, h]
    · rw [e, e]
  · intro hP hfit
    have hord := counter_addresses_ordered cfg
    exact ⟨ena_storage_erase_tek_of_empty cfg _
        (read_tek_count_erase_tek cfg f hP (by omega)),
      ena_storage_erase_temporary_detection_of_empty cfg _
        (ena_storage_temp_detections_count_erase cfg f hfit)⟩
  · intro hfit
    exact ena_storage_erase_detection_of_empty cfg _
      (ena_storage_detections_count_erase cfg f hfit)

/-- Witness of C15: on the partition of zeros all three counts are 0 and each
region erase returns the partition unchanged. -/
theorem region_erase_idempotent_witness :
    ena_storage_erase_tek (specConfig 1000) zeroFlash = zeroFlash ∧
      ena_storage_erase_temporary_detection (specConfig 1000) zeroFlash = zeroFlash ∧
      ena_storage_erase_detection (specConfig 1000) zeroFlash = zeroFlash :=
  ⟨((region_erase_idempotent (specConfig 1000) zeroFlash).1 (by decide)).1,
    ((region_erase_idempotent (specConfig 1000) zeroFlash).2.1 (by decide)).1,
    ((region_erase_idempotent (specConfig 1000) zeroFlash).2.2.1 (by decide)).1⟩

/-! ## Confirmed detections -/

/-- Pointwise effect of `ena_storage_add_detection`. -/
theorem ena_storage_add_detection_apply (cfg : Config) (f : Flash) (detection : Buffer)
    (p : Nat) :
    ena_storage_add_detection cfg f detection p =
      if ENA_STORAGE_DETECTIONS_COUNT_ADDRESS cfg ≤ p ∧
          p < ENA_STORAGE_DETECTIONS_COUNT_ADDRESS cfg + sizeof_uint32_t then
        uint32_bytes ((ena_storage_detections_count cfg f + 1) % 2 ^ 32)
          (p - ENA_STORAGE_DETECTIONS_COUNT_ADDRESS cfg)
      else if
          (ENA_STORAGE_DETECTIONS_START_ADDRESS cfg +
              ena_storage_detections_count cfg f * cfg.sizeof_ena_detection_t) % 2 ^ 32 ≤ p ∧
          p < (ENA_STORAGE_DETECTIONS_START_ADDRESS cfg +
              ena_storage_detections_count cfg f * cfg.sizeof_ena_detection_t) % 2 ^ 32 +
            cfg.sizeof_ena_detection_t then
        detection (p - (ENA_STORAGE_DETECTIONS_START_ADDRESS cfg +
              ena_storage_detections_count cfg f * cfg.sizeof_ena_detection_t) % 2 ^ 32)
      else f p := by
  simp only [ena_storage_add_detection]
  rw [ena_storage_write_apply, ena_storage_write_apply]

/-- The confirmed-detection count after `ena_storage_add_detection` is the old
one plus one, modulo `2 ^ 32`. -/
theorem ena_storage_detections_count_add (cfg : Config) (f : Flash) (detection : Buffer) :
    ena_storage_detections_count cfg (ena_storage_add_detection cfg f detection) =
      (ena_storage_detections_count cfg f + 1) % 2 ^ 32 := by
  simp only [ena_storage_add_detection]
  rw [ena_storage_detections_count, uint32_read_write, Nat.mod_mod]

/-- C12, as stated, fails on a freshly erased partition: every byte is `0xFF`,
the confirmed-detection count reads `2 ^ 32 - 1`, and after
`ena_storage_add_detection` the count is 0, not `c + 1`. -/
theorem ena_storage_add_detection_count_wraps :
    ena_storage_detections_count (specConfig 1000) erasedFlash = 2 ^ 32 - 1 ∧
      ¬ (ena_storage_detections_count (specConfig 1000)
          (ena_storage_add_detection (specConfig 1000) erasedFlash (constRecord 1)) =
        ena_storage_detections_count (specConfig 1000) erasedFlash + 1) := by
  have hc : ena_storage_detections_count (specConfig 1000) erasedFlash = 2 ^ 32 - 1 := by
    decide
  refine ⟨hc, ?_⟩
  rw [ena_storage_detections_count_add, hc]
  decide

/-- C12, amended: confirmed-detection append.  For every state with count
`c < 2 ^ 32 - 1` whose slot `c` ends at or below offset `2 ^ 32`, and every
record `X`, after `ena_storage_add_detection(X)` the count is `c + 1`,
`ena_storage_get_detection(c)` returns `X`, and `ena_storage_get_detection(j)`
returns the same record as before for every `j < c`. -/
theorem ena_storage_add_detection_append (cfg : Config) (f : Flash) (X out : Buffer) (c : Nat)
    (hc : ena_storage_detections_count cfg f = c) (hlt : c < 2 ^ 32 - 1)
    (hfit : ENA_STORAGE_DETECTIONS_START_ADDRESS cfg + (c + 1) * cfg.sizeof_ena_detection_t
      ≤ 2 ^ 32) :
    ena_storage_detections_count cfg (ena_storage_add_detection cfg f X) = c + 1 ∧
      ena_storage_get_detection cfg (ena_storage_add_detection cfg f X) c out =
        (fun i => if i < cfg.sizeof_ena_detection_t then X i else out i) ∧
      ∀ j, j < c →
        ena_storage_get_detection cfg (ena_storage_add_detection cfg f X) j out =
          ena_storage_get_detection cfg f j out := by
  have hS : ENA_STORAGE_DETECTIONS_START_ADDRESS cfg =
      ENA_STORAGE_DETECTIONS_COUNT_ADDRESS cfg + sizeof_uint32_t := rfl
  rw [Nat.succ_mul] at hfit
  refine ⟨?_, ?_, ?_⟩
  · rw [ena_storage_detections_count_add, hc]
    apply Nat.mod_eq_of_lt
    omega
  · funext i
    simp only [ena_storage_get_detection, ena_storage_read, esp_partition_read]
    by_cases hi : i < cfg.sizeof_ena_detection_t
    · rw [if_pos hi, if_pos hi, ena_storage_add_detection_apply, hc,
        Nat.mod_eq_of_lt (by omega), if_neg (by omega), if_pos (by omega)]
      congr 1
      omega
    · rw [if_neg hi, if_neg hi]
  · intro j hj
    funext i
    simp only [ena_storage_get_detection, ena_storage_read, esp_partition_read]
    by_cases hi : i < cfg.sizeof_ena_detection_t
    · have h1 := Nat.mul_le_mul_right cfg.sizeof_ena_detection_t (Nat.succ_le_of_lt hj)
      rw [Nat.succ_mul] at h1
      rw [if_pos hi, if_pos hi, ena_storage_add_detection_apply, hc,
        Nat.mod_eq_of_lt (by omega), Nat.mod_eq_of_lt (by omega), if_neg (by omega),
        if_neg (by omega)]
    · rw [if_neg hi, if_neg hi]

/-- Witness of C12 (amended): the spec's layout, a partition of zeros (count 0)
and a record of ones; the count becomes 1 and slot 0 reads back as the record. -/
theorem ena_storage_add_detection_append_witness :
    ena_storage_detections_count (specConfig 1000)
        (ena_storage_add_detection (specConfig 1000) zeroFlash (constRecord 1)) = 0 + 1 ∧
      ena_storage_get_detection (specConfig 1000)
          (ena_storage_add_detection (specConfig 1000) zeroFlash (constRecord 1)) 0 malloc =
        (fun i => if i < (specConfig 1000).sizeof_ena_detection_t then constRecord 1 i
          else malloc i) :=
  ⟨(ena_storage_add_detection_append (specConfig 1000) zeroFlash (constRecord 1) malloc 0
      (by decide) (by decide) (by decide)).1,
    (ena_storage_add_detection_append (specConfig 1000) zeroFlash (constRecord 1) malloc 0
      (by decide) (by decide) (by decide)).2.1⟩

/-! ## Key log: sequences of writes -/

/-- Writing the records `r 0 .. r n` is writing `r 0 .. r (n - 1)` and then `r n`. -/
theorem write_teks_range_succ (cfg : Config) (f : Flash) (r : Nat → Buffer) (n : Nat) :
    write_teks cfg f ((List.range (n + 1)).map r) =
      ena_storage_write_tek cfg (write_teks cfg f ((List.range n).map r)) (r n) := by
  rw [List.range_succ, List.map_append, List.map_cons, List.map_nil, write_teks_append]

/-- Starting from a key count of 0, after `n < 2 ^ 32` writes the count is `n`. -/
theorem read_tek_count_write_teks_range (cfg : Config) (f : Flash) (r : Nat → Buffer) (n : Nat)
    (hc : read_tek_count f = 0) (hn : n < 2 ^ 32) :
    read_tek_count (write_teks cfg f ((List.range n).map r)) = n := by
  rw [read_tek_count_write_teks, hc, List.length_map, List.length_range, Nat.zero_add]
  exact Nat.mod_eq_of_lt hn

/-- A read of `size` bytes at `address` returns a record once the partition
holds the record there. -/
theorem ena_storage_read_eq_record (g : Flash) (address size : Nat) (out record : Buffer)
    (h : ∀ i, i < size → g (address + i) = record i) :
    ena_storage_read g address out size = fun i => if i < size then record i else out i := by
  funext i
  simp only [ena_storage_read, esp_partition_read]
  by_cases hi : i < size
  · rw [if_pos hi, if_pos hi, h i hi]
  · rw [if_neg hi, if_neg hi]

/-- Content of a key slot after `n` writes from a key count of 0 (capacity at
most 256): the slot `j mod capacity` holds the record of write number `j`
(counted from 0) when no later write went to the same slot. -/
theorem write_teks_slot (cfg : Config) (f : Flash) (r : Nat → Buffer)
    (hP0 : 0 < cfg.ENA_STORAGE_TEK_STORE_PERIOD) (hP : cfg.ENA_STORAGE_TEK_STORE_PERIOD ≤ 256)
    (hfit : ENA_STORAGE_TEMP_DETECTIONS_COUNT_ADDRESS cfg < 2 ^ 32)
    (hc : read_tek_count f = 0) :
    ∀ n, n ≤ 2 ^ 32 → ∀ j, j < n →
      (∀ k, j < k → k < n →
        k % cfg.ENA_STORAGE_TEK_STORE_PERIOD ≠ j % cfg.ENA_STORAGE_TEK_STORE_PERIOD) →
      ∀ i, i < cfg.sizeof_ena_tek_t →
        write_teks cfg f ((List.range n).map r)
            (ENA_STORAGE_TEK_START_ADDRESS +
              j % cfg.ENA_STORAGE_TEK_STORE_PERIOD * cfg.sizeof_ena_tek_t + i) = r j i := by
  intro n
  induction n with
  | zero =>
    intro _ j hj
    omega
  | succ m ih =>
    intro hm j hj hlast i hi
    have hcm := read_tek_count_write_teks_range cfg f r m hc (by omega)
    have hS : ENA_STORAGE_TEK_START_ADDRESS = 4 := rfl
    rw [write_teks_range_succ, ena_storage_write_tek_slot cfg _ _ _ hP0 hP hfit, hcm,
      if_neg (by omega)]
    by_cases hjm : j = m
    · subst hjm
      rw [if_pos (by omega)]
      congr 1
      omega
    · have hne := hlast m (by omega) (by omega)
      have hslots : (j % cfg.ENA_STORAGE_TEK_STORE_PERIOD + 1) * cfg.sizeof_ena_tek_t ≤
            m % cfg.ENA_STORAGE_TEK_STORE_PERIOD * cfg.sizeof_ena_tek_t ∨
          (m % cfg.ENA_STORAGE_TEK_STORE_PERIOD + 1) * cfg.sizeof_ena_tek_t ≤
            j % cfg.ENA_STORAGE_TEK_STORE_PERIOD * cfg.sizeof_ena_tek_t := by
        rcases Nat.lt_or_gt_of_ne hne with hlt | hgt
        · right
          exact Nat.mul_le_mul_right _ (Nat.succ_le_of_lt hlt)
        · left
          exact Nat.mul_le_mul_right _ (Nat.succ_le_of_lt hgt)
      rw [Nat.succ_mul, Nat.succ_mul] at hslots
      rw [if_neg (by omega)]
      exact ih (by omega) j (by omega) (fun k hk1 hk2 => hlast k hk1 (by omega)) i hi

/-- Result of `ena_storage_read_last_tek` after `n` writes from a key count of
0, when `n` is not a multiple of the capacity (capacity at most 256): the count
`n` and the record of the last write. -/
theorem ena_storage_read_last_tek_write_teks (cfg : Config) (f : Flash) (r : Nat → Buffer)
    (out : Buffer) (n : Nat)
    (hP0 : 0 < cfg.ENA_STORAGE_TEK_STORE_PERIOD) (hP : cfg.ENA_STORAGE_TEK_STORE_PERIOD ≤ 256)
    (hfit : ENA_STORAGE_TEMP_DETECTIONS_COUNT_ADDRESS cfg < 2 ^ 32)
    (hc : read_tek_count f = 0) (hn : n < 2 ^ 32)
    (hmod : n % cfg.ENA_STORAGE_TEK_STORE_PERIOD ≠ 0) :
    ena_storage_read_last_tek cfg (write_teks cfg f ((List.range n).map r)) out =
      (n, fun i => if i < cfg.sizeof_ena_tek_t then r (n - 1) i else out i) := by
  have hcn := read_tek_count_write_teks_range cfg f r n hc hn
  have hn0 : 0 < n := by
    rcases Nat.eq_zero_or_pos n with h | h
    · rw [h, Nat.zero_mod] at hmod
      exact absurd rfl hmod
    · exact h
  have hlt := Nat.mod_lt n hP0
  have hpred : (n - 1) % cfg.ENA_STORAGE_TEK_STORE_PERIOD =
      n % cfg.ENA_STORAGE_TEK_STORE_PERIOD - 1 := by
    have h1 : n = n / cfg.ENA_STORAGE_TEK_STORE_PERIOD * cfg.ENA_STORAGE_TEK_STORE_PERIOD +
        n % cfg.ENA_STORAGE_TEK_STORE_PERIOD := by
      rw [Nat.mul_comm]
      exact (Nat.div_add_mod n _).symm
    have h2 : n - 1 = (n % cfg.ENA_STORAGE_TEK_STORE_PERIOD - 1) +
        cfg.ENA_STORAGE_TEK_STORE_PERIOD * (n / cfg.ENA_STORAGE_TEK_STORE_PERIOD) := by
      rw [Nat.mul_comm]
      omega
    rw [h2, Nat.add_mul_mod_self_left]
    exact Nat.mod_eq_of_lt (by omega)
  have hidx : (n % cfg.ENA_STORAGE_TEK_STORE_PERIOD + 2 ^ 32 - 1) % 2 ^ 32 % 256 =
      (n - 1) % cfg.ENA_STORAGE_TEK_STORE_PERIOD := by
    rw [hpred]
    omega
  have haddr := (tek_slot_address cfg (n - 1) hP0 hP hfit).1
  rw [Nat.mod_eq_of_lt (by omega : (n - 1) % cfg.ENA_STORAGE_TEK_STORE_PERIOD < 256)] at haddr
  simp only [ena_storage_read_last_tek, hcn]
  rw [if_neg (by omega), hidx, haddr]
  refine congrArg (Prod.mk n) ?_
  apply ena_storage_read_eq_record
  intro i hi
  exact write_teks_slot cfg f r hP0 hP hfit hc n (by omega) (n - 1) (by omega)
    (fun k hk1 hk2 => by omega) i hi

/-- C16: wrap-around overwrite.  With `TEK_STORE_PERIOD = 14` (and a key log
that lies below `2 ^ 32`), starting from a key count of 0 and writing the 15
records `r 0 .. r 14` with `ena_storage_write_tek`,
`ena_storage_read_last_tek` returns the count 15 and the record `r 14`, slot 0
holds `r 14` (the record `r 0` has been overwritten), and the slots `1 .. 13`
hold `r 1 .. r 13`. -/
theorem write_tek_wraparound (cfg : Config) (f : Flash) (r : Nat → Buffer) (out : Buffer)
    (hP : cfg.ENA_STORAGE_TEK_STORE_PERIOD = 14)
    (hfit : ENA_STORAGE_TEMP_DETECTIONS_COUNT_ADDRESS cfg < 2 ^ 32)
    (hc : read_tek_count f = 0) :
    ena_storage_read_last_tek cfg (write_teks cfg f ((List.range 15).map r)) out =
        (15, fun i => if i < cfg.sizeof_ena_tek_t then r 14 i else out i) ∧
      ena_storage_read (write_teks cfg f ((List.range 15).map r))
          (ENA_STORAGE_TEK_START_ADDRESS + 0 * cfg.sizeof_ena_tek_t) out cfg.sizeof_ena_tek_t =
        (fun i => if i < cfg.sizeof_ena_tek_t then r 14 i else out i) ∧
      ∀ s, 1 ≤ s → s ≤ 13 →
        ena_storage_read (write_teks cfg f ((List.range 15).map r))
            (ENA_STORAGE_TEK_START_ADDRESS + s * cfg.sizeof_ena_tek_t) out
            cfg.sizeof_ena_tek_t =
          fun i => if i < cfg.sizeof_ena_tek_t then r s i else out i := by
  have hP0 : 0 < cfg.ENA_STORAGE_TEK_STORE_PERIOD := by omega
  have hP256 : cfg.ENA_STORAGE_TEK_STORE_PERIOD ≤ 256 := by omega
  refine ⟨?_, ?_, ?_⟩
  · exact ena_storage_read_last_tek_write_teks cfg f r out 15 hP0 hP256 hfit hc (by decide)
      (by rw [hP]; decide)
  · apply ena_storage_read_eq_record
    intro i hi
    have h := write_teks_slot cfg f r hP0 hP256 hfit hc 15 (by decide) 14 (by decide)
      (fun k hk1 hk2 => by omega) i hi
    rw [hP] at h
    exact h
  · intro s hs1 hs2
    apply ena_storage_read_eq_record
    intro i hi
    have h := write_teks_slot cfg f r hP0 hP256 hfit hc 15 (by decide) s (by omega)
      (fun k hk1 hk2 => by rw [hP]; omega) i hi
    rw [hP, Nat.mod_eq_of_lt (by omega : s < 14)] at h
    exact h

/-- Witness of C16: the spec's layout, a partition of zeros and the records
`r k` whose bytes all have the value `k`; the last key read is `r 14`, and slot
1 still holds `r 1`. -/
theorem write_tek_wraparound_witness :
    ena_storage_read_last_tek (specConfig 1000)
        (write_teks (specConfig 1000) zeroFlash ((List.range 15).map constRecord)) malloc =
      (15, fun i => if i < (specConfig 1000).sizeof_ena_tek_t then constRecord 14 i
        else malloc i) ∧
    ena_storage_read (write_teks (specConfig 1000) zeroFlash ((List.range 15).map constRecord))
        (ENA_STORAGE_TEK_START_ADDRESS + 1 * (specConfig 1000).sizeof_ena_tek_t) malloc
        (specConfig 1000).sizeof_ena_tek_t =
      (fun i => if i < (specConfig 1000).sizeof_ena_tek_t then constRecord 1 i else malloc i) :=
  ⟨(write_tek_wraparound (specConfig 1000) zeroFlash constRecord malloc (by decide) (by decide)
      (by decide)).1,
    (write_tek_wraparound (specConfig 1000) zeroFlash constRecord malloc (by decide) (by decide)
      (by decide)).2.2 1 (by decide) (by decide)⟩

/-! ## Temporary detections: add after remove -/

/-- The temporary-detection count after `ena_storage_add_temp_detection` is
the old one plus one, modulo `2 ^ 32`. -/
theorem ena_storage_temp_detections_count_add (cfg : Config) (f : Flash) (detection : Buffer) :
    ena_storage_temp_detections_count cfg (ena_storage_add_temp_detection cfg f detection).2 =
      (ena_storage_temp_detections_count cfg f + 1) % 2 ^ 32 := by
  simp only [ena_storage_add_temp_detection]
  rw [ena_storage_temp_detections_count, uint32_read_write, Nat.mod_mod]

/-- C17: re-add after remove with more than 256 records.  With capacity 1000
and 257 stored temporary detections (all bytes zero), after
`ena_storage_remove_temp_detection(0)` the count is 256, and
`ena_storage_add_temp_detection` of a record of ones truncates the slot index
256 to 8 bits: the count goes back to 257, but slot 256 (the slot vacated by
the decremented count) still reads zero, and slot 0, which held a surviving
record (first byte 0), now holds the new record (first byte 1). -/
theorem ena_storage_add_after_remove_overwrites_slot_zero :
    ena_storage_temp_detections_count (specConfig 1000) (countersFlash 257 0) = 257 ∧
    ena_storage_temp_detections_count (specConfig 1000)
        (ena_storage_add_temp_detection (specConfig 1000)
          (ena_storage_remove_temp_detection (specConfig 1000) (countersFlash 257 0) 0)
          (constRecord 1)).2 = 257 ∧
    ena_storage_get_temp_detection (specConfig 1000)
        (ena_storage_add_temp_detection (specConfig 1000)
          (ena_storage_remove_temp_detection (specConfig 1000) (countersFlash 257 0) 0)
          (constRecord 1)).2 256 malloc 0 = 0 ∧
    ena_storage_get_temp_detection (specConfig 1000)
        (ena_storage_remove_temp_detection (specConfig 1000) (countersFlash 257 0) 0)
        0 malloc 0 = 0 ∧
    ena_storage_get_temp_detection (specConfig 1000)
        (ena_storage_add_temp_detection (specConfig 1000)
          (ena_storage_remove_temp_detection (specConfig 1000) (countersFlash 257 0) 0)
          (constRecord 1)).2 0 malloc 0 = 1 := by
  have hcount : ena_storage_temp_detections_count (specConfig 1000)
      (ena_storage_remove_temp_detection (specConfig 1000) (countersFlash 257 0) 0) = 256 := by
    rw [ena_storage_temp_detections_count_remove]
    decide
  have hblk : (ENA_STORAGE_TEMP_DETECTIONS_START_ADDRESS (specConfig 1000) +
      0 * (specConfig 1000).sizeof_ena_temp_detection_t) % 2 ^ 32 +
        (specConfig 1000).sizeof_ena_temp_detection_t ≤
      ((ENA_STORAGE_TEMP_DETECTIONS_START_ADDRESS (specConfig 1000) +
        0 * (specConfig 1000).sizeof_ena_temp_detection_t) % 2 ^ 32 / BLOCK_SIZE + 1) *
        BLOCK_SIZE := by decide
  refine ⟨by decide, ?_, ?_, ?_, ?_⟩
  · rw [ena_storage_temp_detections_count_add, hcount]
    decide
  · simp only [ena_storage_get_temp_detection, ena_storage_read, esp_partition_read]
    rw [if_pos (by decide), ena_storage_add_temp_detection_apply, hcount,
      ena_storage_remove_temp_detection_apply _ _ _ _ hblk]
    decide
  · simp only [ena_storage_get_temp_detection, ena_storage_read, esp_partition_read]
    rw [if_pos (by decide), ena_storage_remove_temp_detection_apply _ _ _ _ hblk]
    decide
  · simp only [ena_storage_get_temp_detection, ena_storage_read, esp_partition_read]
    rw [if_pos (by decide), ena_storage_add_temp_detection_apply, hcount]
    decide

/-! ## Termination of the block-splitting recursions -/

/-- The sizes of the two slices of the boundary-crossing branch: the first
slice is non-empty and ends exactly at the boundary, both slices are strictly
shorter than `size`, and they add up to `size`. -/
theorem split_sizes (address size : Nat)
    (h : ¬ address + size ≤ (address / BLOCK_SIZE + 1) * BLOCK_SIZE) :
    0 < size - (address + size - (address / BLOCK_SIZE + 1) * BLOCK_SIZE) ∧
      address + (size - (address + size - (address / BLOCK_SIZE + 1) * BLOCK_SIZE)) =
        (address / BLOCK_SIZE + 1) * BLOCK_SIZE ∧
      size - (address + size - (address / BLOCK_SIZE + 1) * BLOCK_SIZE) < size ∧
      address + size - (address / BLOCK_SIZE + 1) * BLOCK_SIZE < size ∧
      (size - (address + size - (address / BLOCK_SIZE + 1) * BLOCK_SIZE)) +
        (address + size - (address / BLOCK_SIZE + 1) * BLOCK_SIZE) = size := by
  simp only [BLOCK_SIZE] at h ⊢
  omega

/-- With a budget of at least one invocation, the budgeted write whose range
fits the block returns what `ena_storage_write` computes. -/
theorem ena_storage_write_fuel_local (fuel : Nat) (f : Flash) (address : Nat) (data : Buffer)
    (size : Nat) (h : address + size ≤ (address / BLOCK_SIZE + 1) * BLOCK_SIZE) :
    ena_storage_write_fuel (fuel + 1) f address data size =
      some (ena_storage_write f address data size) := by
  rw [ena_storage_write_local f address data size h, ena_storage_write_fuel]
  simp only [h, if_true]

/-- Enough budget gives the result: the budgeted write returns what
`ena_storage_write` computes as soon as the budget covers one invocation for
each erase-block the range touches. -/
theorem ena_storage_write_fuel_eq :
    ∀ (size fuel : Nat) (f : Flash) (address : Nat) (data : Buffer),
      1 ≤ fuel →
      (address + size + (BLOCK_SIZE - 1)) / BLOCK_SIZE - address / BLOCK_SIZE ≤ fuel →
      ena_storage_write_fuel fuel f address data size =
        some (ena_storage_write f address data size) := by
  intro size
  induction size using Nat.strong_induction_on with
  | _ size ih =>
    intro fuel f address data h1 hfuel
    obtain ⟨k, rfl⟩ : ∃ k, fuel = k + 1 := ⟨fuel - 1, by omega⟩
    by_cases h : address + size ≤ (address / BLOCK_SIZE + 1) * BLOCK_SIZE
    · exact ena_storage_write_fuel_local k f address data size h
    · have hs := split_sizes address size h
      have hk : 1 ≤ k := by
        simp only [BLOCK_SIZE] at h hfuel
        omega
      have hk1 : (address + (size - (address + size - (address / BLOCK_SIZE + 1) * BLOCK_SIZE)) +
          (BLOCK_SIZE - 1)) / BLOCK_SIZE - address / BLOCK_SIZE ≤ k := by
        simp only [BLOCK_SIZE] at h hfuel ⊢
        omega
      have hk2 : ((address / BLOCK_SIZE + 1) * BLOCK_SIZE +
          (address + size - (address / BLOCK_SIZE + 1) * BLOCK_SIZE) +
          (BLOCK_SIZE - 1)) / BLOCK_SIZE - (address / BLOCK_SIZE + 1) * BLOCK_SIZE / BLOCK_SIZE
            ≤ k := by
        simp only [BLOCK_SIZE] at h hfuel ⊢
        omega
      rw [ena_storage_write_split f address data size h, ena_storage_write_fuel]
      simp only [h, if_false]
      rw [ih _ hs.2.2.1 k f address _ hk hk1]
      simp only
      exact ih _ hs.2.2.2.1 k _ _ _ hk hk2

/-- Enough budget gives the result: the budgeted loop returns what
`shift_delete_loop` computes, after `block_num_end + 1 - block_num_start`
rounds, as soon as the budget covers that many rounds. -/
theorem shift_delete_loop_fuel_eq (size block_num_end : Nat) :
    ∀ (fuel : Nat) (f : Flash) (block_num_start block_start : Nat),
      block_num_end + 1 - block_num_start ≤ fuel →
      shift_delete_loop_fuel size block_num_end fuel f block_num_start block_start =
        some (shift_delete_loop size block_num_end f block_num_start block_start,
          block_num_end + 1 - block_num_start) := by
  intro fuel
  induction fuel with
  | zero =>
    intro f block_num_start block_start h
    have hc : ¬ block_num_end ≥ block_num_start := by omega
    have h0 : block_num_end + 1 - block_num_start = 0 := by omega
    rw [shift_delete_loop_fuel, if_neg hc, shift_delete_loop_exit _ _ _ _ _ hc, h0]
  | succ k ih =>
    intro f block_num_start block_start h
    by_cases hc : block_num_end ≥ block_num_start
    · have hk : block_num_end + 1 - (block_num_start + 1) ≤ k := by omega
      have hr : block_num_end + 1 - (block_num_start + 1) + 1 =
          block_num_end + 1 - block_num_start := by omega
      rw [shift_delete_loop_fuel, if_pos hc, ih _ _ _ hk,
        shift_delete_loop_step _ _ _ _ _ hc]
      simp only [hr]
    · have h0 : block_num_end + 1 - block_num_start = 0 := by omega
      rw [shift_delete_loop_fuel, if_neg hc, shift_delete_loop_exit _ _ _ _ _ hc, h0]

/-- The budgeted loop fails when the budget is smaller than the number of rounds
the loop has to run: the count it returns is not an artefact of the budget. -/
theorem shift_delete_loop_fuel_none (size block_num_end : Nat) :
    ∀ (fuel : Nat) (f : Flash) (block_num_start block_start : Nat),
      fuel < block_num_end + 1 - block_num_start →
      shift_delete_loop_fuel size block_num_end fuel f block_num_start block_start = none := by
  intro fuel
  induction fuel with
  | zero =>
    intro f block_num_start block_start h
    have hc : block_num_end ≥ block_num_start := by omega
    rw [shift_delete_loop_fuel, if_pos hc]
  | succ k ih =>
    intro f block_num_start block_start h
    have hc : block_num_end ≥ block_num_start := by omega
    have hk : k < block_num_end + 1 - (block_num_start + 1) := by omega
    rw [shift_delete_loop_fuel, if_pos hc, ih _ _ _ hk]

/-- With a budget of at least one invocation, the budgeted removal whose range
fits the block of `address` returns what `ena_storage_shift_delete` computes,
after `end_address / 4096 + 1 - address / 4096` rounds of the block loop. -/
theorem ena_storage_shift_delete_fuel_local (loop_fuel fuel : Nat) (f : Flash)
    (address end_address size : Nat)
    (h : address + size ≤ (address / BLOCK_SIZE + 1) * BLOCK_SIZE)
    (hl : end_address / BLOCK_SIZE + 1 - address / BLOCK_SIZE ≤ loop_fuel) :
    ena_storage_shift_delete_fuel loop_fuel (fuel + 1) f address end_address size =
      some (ena_storage_shift_delete f address end_address size,
        end_address / BLOCK_SIZE + 1 - address / BLOCK_SIZE) := by
  rw [ena_storage_shift_delete_local f address end_address size h,
    ena_storage_shift_delete_fuel]
  simp only [h, if_true]
  exact shift_delete_loop_fuel_eq _ _ _ _ _ _ hl

/-- Enough budget gives the result: the budgeted removal returns what
`ena_storage_shift_delete` computes as soon as the budget covers one nested
invocation for each erase-block the removed range touches and the loop budget
covers the rounds of the outer arguments and `2 ^ 20` rounds (the number of
erase-blocks a 32-bit offset can address). -/
theorem ena_storage_shift_delete_fuel_eq (loop_fuel : Nat) (hwrap : 2 ^ 20 ≤ loop_fuel) :
    ∀ (size fuel : Nat) (f : Flash) (address end_address : Nat),
      1 ≤ fuel →
      (address + size + (BLOCK_SIZE - 1)) / BLOCK_SIZE - address / BLOCK_SIZE ≤ fuel →
      end_address / BLOCK_SIZE + 1 - address / BLOCK_SIZE ≤ loop_fuel →
      ∃ rounds, ena_storage_shift_delete_fuel loop_fuel fuel f address end_address size =
        some (ena_storage_shift_delete f address end_address size, rounds) := by
  intro size
  induction size using Nat.strong_induction_on with
  | _ size ih =>
    intro fuel f address end_address h1 hfuel hloop
    obtain ⟨k, rfl⟩ : ∃ k, fuel = k + 1 := ⟨fuel - 1, by omega⟩
    by_cases h : address + size ≤ (address / BLOCK_SIZE + 1) * BLOCK_SIZE
    · exact ⟨_, ena_storage_shift_delete_fuel_local loop_fuel k f address end_address size h hloop⟩
    · have hs := split_sizes address size h
      have hk : 1 ≤ k := by
        simp only [BLOCK_SIZE] at h hfuel
        omega
      have hk1 : (address + (size - (address + size - (address / BLOCK_SIZE + 1) * BLOCK_SIZE)) +
          (BLOCK_SIZE - 1)) / BLOCK_SIZE - address / BLOCK_SIZE ≤ k := by
        simp only [BLOCK_SIZE] at h hfuel ⊢
        omega
      have hk2 : ((address / BLOCK_SIZE + 1) * BLOCK_SIZE +
          (address + size - (address / BLOCK_SIZE + 1) * BLOCK_SIZE) +
          (BLOCK_SIZE - 1)) / BLOCK_SIZE - (address / BLOCK_SIZE + 1) * BLOCK_SIZE / BLOCK_SIZE
            ≤ k := by
        simp only [BLOCK_SIZE] at h hfuel ⊢
        omega
      have hl1 : (address / BLOCK_SIZE + 1) * BLOCK_SIZE / BLOCK_SIZE + 1 - address / BLOCK_SIZE
          ≤ loop_fuel := by
        simp only [BLOCK_SIZE] at h ⊢
        omega
      have hl2 : (end_address + 2 ^ 32 -
            (size - (address + size - (address / BLOCK_SIZE + 1) * BLOCK_SIZE))) % 2 ^ 32 /
            BLOCK_SIZE + 1 - (address / BLOCK_SIZE + 1) * BLOCK_SIZE / BLOCK_SIZE
          ≤ loop_fuel := by
        simp only [BLOCK_SIZE] at h ⊢
        omega
      obtain ⟨rounds1, e1⟩ := ih _ hs.2.2.1 k f address
        ((address / BLOCK_SIZE + 1) * BLOCK_SIZE) hk hk1 hl1
      obtain ⟨rounds2, e2⟩ := ih _ hs.2.2.2.1 k
        (ena_storage_shift_delete f address ((address / BLOCK_SIZE + 1) * BLOCK_SIZE)
          (size - (address + size - (address / BLOCK_SIZE + 1) * BLOCK_SIZE)))
        ((address / BLOCK_SIZE + 1) * BLOCK_SIZE)
        ((end_address + 2 ^ 32 -
          (size - (address + size - (address / BLOCK_SIZE + 1) * BLOCK_SIZE))) % 2 ^ 32)
        hk hk2 hl2
      refine ⟨rounds1 + rounds2, ?_⟩
      rw [ena_storage_shift_delete_split f address end_address size h,
        ena_storage_shift_delete_fuel]
      simp only [h, if_false]
      rw [e1]
      simp only
      rw [e2]

/-- C18, as stated, fails for a removal that crosses an erase-block boundary:
the block loop runs in every block-local invocation of the recursion.  The
call `ena_storage_shift_delete(4095, 4097, 2)` runs it for two rounds in its
first recursive call `(4095, 4096, 1)` and for one round in its second
`(4096, 4096, 1)`, three rounds in all, while the stated bound
`4097 / 4096 - 4095 / 4096 + 1` is two. -/
theorem ena_storage_shift_delete_crossing_loop_rounds :
    ena_storage_shift_delete_fuel (2 ^ 20) 2 offsetFlash 4095 4097 2 =
        some (ena_storage_shift_delete offsetFlash 4095 4097 2, 3) ∧
      ¬ 3 ≤ 4097 / BLOCK_SIZE - 4095 / BLOCK_SIZE + 1 := by
  refine ⟨?_, by decide⟩
  obtain ⟨rounds, h⟩ := ena_storage_shift_delete_fuel_eq (2 ^ 20) (le_refl _) 2 2 offsetFlash
    4095 4097 (by decide) (by decide) (by decide)
  have hr : (ena_storage_shift_delete_fuel (2 ^ 20) 2 offsetFlash 4095 4097 2).map Prod.snd =
      some 3 := by decide
  rw [h] at hr ⊢
  simp only [Option.map_some', Option.some.injEq] at hr
  rw [hr]

/-- C18, amended: termination of the block-splitting recursions.  For every
address, size and end address, `ena_storage_write` and
`ena_storage_shift_delete` return: run with a budget of
`(address + size) / 4096 - address / 4096 + 1` nested invocations (and, for the
block loop, of `end_address / 4096 - address / 4096 + 1` and `2 ^ 20` rounds)
the budgeted copies do not run out and give the results of the two functions.
In the boundary-crossing branch the first slice is non-empty and fits the
current block and both slices are strictly shorter than `size`, so the
recursive calls have strictly smaller size.  An invocation whose removed range
fits the block of `address`, the only kind that runs the block loop, runs it
for `end_address / 4096 + 1 - address / 4096` rounds, at most
`end_address / 4096 - address / 4096 + 1`. -/
theorem block_splitting_terminates (f : Flash) (data : Buffer)
    (address end_address size fuel loop_fuel : Nat)
    (hfuel : (address + size) / BLOCK_SIZE - address / BLOCK_SIZE + 1 ≤ fuel)
    (hloop : end_address / BLOCK_SIZE - address / BLOCK_SIZE + 1 ≤ loop_fuel)
    (hwrap : 2 ^ 20 ≤ loop_fuel) :
    ena_storage_write_fuel fuel f address data size =
        some (ena_storage_write f address data size) ∧
      (∃ rounds, ena_storage_shift_delete_fuel loop_fuel fuel f address end_address size =
        some (ena_storage_shift_delete f address end_address size, rounds)) ∧
      (¬ address + size ≤ (address / BLOCK_SIZE + 1) * BLOCK_SIZE →
        0 < size - (address + size - (address / BLOCK_SIZE + 1) * BLOCK_SIZE) ∧
        address + (size - (address + size - (address / BLOCK_SIZE + 1) * BLOCK_SIZE)) ≤
          (address / BLOCK_SIZE + 1) * BLOCK_SIZE ∧
        size - (address + size - (address / BLOCK_SIZE + 1) * BLOCK_SIZE) < size ∧
        address + size - (address / BLOCK_SIZE + 1) * BLOCK_SIZE < size) ∧
      (address + size ≤ (address / BLOCK_SIZE + 1) * BLOCK_SIZE →
        ena_storage_shift_delete_fuel (end_address / BLOCK_SIZE - address / BLOCK_SIZE + 1) 1 f
            address end_address size =
          some (ena_storage_shift_delete f address end_address size,
            end_address / BLOCK_SIZE + 1 - address / BLOCK_SIZE) ∧
        end_address / BLOCK_SIZE + 1 - address / BLOCK_SIZE ≤
          end_address / BLOCK_SIZE - address / BLOCK_SIZE + 1) := by
  have h1 : 1 ≤ fuel := by omega
  have hc : (address + size + (BLOCK_SIZE - 1)) / BLOCK_SIZE - address / BLOCK_SIZE ≤ fuel := by
    simp only [BLOCK_SIZE] at hfuel ⊢
    omega
  refine ⟨ena_storage_write_fuel_eq size fuel f address data h1 hc,
    ena_storage_shift_delete_fuel_eq loop_fuel hwrap size fuel f address end_address h1 hc
      (by omega), ?_, ?_⟩
  · intro h
    have hs := split_sizes address size h
    exact ⟨hs.1, le_of_eq hs.2.1, hs.2.2.1, hs.2.2.2.1⟩
  · intro h
    exact ⟨ena_storage_shift_delete_fuel_local _ 0 f address end_address size h (by omega),
      by omega⟩

/-- Witness of C18 (amended): writing 10000 bytes at offset 4000, and removing
them from a log that ends at 20000, with a budget of 4 nested invocations and
`2 ^ 20` loop rounds.  The range crosses the boundary at 4096: the first slice
has `96` bytes. -/
theorem block_splitting_terminates_witness :
    ((4000 + 10000) / BLOCK_SIZE - 4000 / BLOCK_SIZE + 1 ≤ 4 ∧
      20000 / BLOCK_SIZE - 4000 / BLOCK_SIZE + 1 ≤ 2 ^ 20) ∧
    ena_storage_write_fuel 4 erasedFlash 4000 (constRecord 7) 10000 =
        some (ena_storage_write erasedFlash 4000 (constRecord 7) 10000) ∧
      (∃ rounds, ena_storage_shift_delete_fuel (2 ^ 20) 4 erasedFlash 4000 20000 10000 =
        some (ena_storage_shift_delete erasedFlash 4000 20000 10000, rounds)) ∧
      ¬ 4000 + 10000 ≤ (4000 / BLOCK_SIZE + 1) * BLOCK_SIZE ∧
      0 < 10000 - (4000 + 10000 - (4000 / BLOCK_SIZE + 1) * BLOCK_SIZE) ∧
      10000 - (4000 + 10000 - (4000 / BLOCK_SIZE + 1) * BLOCK_SIZE) < 10000 ∧
      4000 + 10000 - (4000 / BLOCK_SIZE + 1) * BLOCK_SIZE < 10000 :=
  have h := block_splitting_terminates erasedFlash (constRecord 7) 4000 20000 10000 4 (2 ^ 20)
    (by decide) (by decide) (le_refl _)
  have hx : ¬ 4000 + 10000 ≤ (4000 / BLOCK_SIZE + 1) * BLOCK_SIZE := by decide
  ⟨⟨by decide, by decide⟩, h.1, h.2.1, hx, (h.2.2.1 hx).1, (h.2.2.1 hx).2.2.1,
    (h.2.2.1 hx).2.2.2⟩

/-! ## Physical operations of a write -/

/-- Unfolding of `ena_storage_write_ops` when the range fits the block. -/
theorem ena_storage_write_ops_local (f : Flash) (address : Nat) (data : Buffer) (size : Nat)
    (h : address + size ≤ (address / BLOCK_SIZE + 1) * BLOCK_SIZE) :
    ena_storage_write_ops f address data size =
      (esp_partition_write
          (esp_partition_erase_range f (address / BLOCK_SIZE * BLOCK_SIZE) BLOCK_SIZE)
          (address / BLOCK_SIZE * BLOCK_SIZE)
          (memcpy (esp_partition_read f (address / BLOCK_SIZE * BLOCK_SIZE) malloc BLOCK_SIZE)
            (address - address / BLOCK_SIZE * BLOCK_SIZE) data 0 size)
          BLOCK_SIZE,
        [FlashOp.read (address / BLOCK_SIZE * BLOCK_SIZE) BLOCK_SIZE,
          FlashOp.erase (address / BLOCK_SIZE * BLOCK_SIZE) BLOCK_SIZE,
          FlashOp.write (address / BLOCK_SIZE * BLOCK_SIZE)
            (memcpy (esp_partition_read f (address / BLOCK_SIZE * BLOCK_SIZE) malloc BLOCK_SIZE)
              (address - address / BLOCK_SIZE * BLOCK_SIZE) data 0 size)
            BLOCK_SIZE]) := by
  rw [ena_storage_write_ops]
  simp only [h, dite_true]

/-- Unfolding of `ena_storage_write_ops` when the range leaves the block. -/
theorem ena_storage_write_ops_split (f : Flash) (address : Nat) (data : Buffer) (size : Nat)
    (h : ¬ address + size ≤ (address / BLOCK_SIZE + 1) * BLOCK_SIZE) :
    ena_storage_write_ops f address data size =
      ((ena_storage_write_ops
          (ena_storage_write_ops f address
            (memcpy malloc 0 data 0
              (size - (address + size - (address / BLOCK_SIZE + 1) * BLOCK_SIZE)))
            (size - (address + size - (address / BLOCK_SIZE + 1) * BLOCK_SIZE))).1
          ((address / BLOCK_SIZE + 1) * BLOCK_SIZE)
          (memcpy malloc 0 data
            (size - (address + size - (address / BLOCK_SIZE + 1) * BLOCK_SIZE))
            (address + size - (address / BLOCK_SIZE + 1) * BLOCK_SIZE))
          (address + size - (address / BLOCK_SIZE + 1) * BLOCK_SIZE)).1,
        (ena_storage_write_ops f address
            (memcpy malloc 0 data 0
              (size - (address + size - (address / BLOCK_SIZE + 1) * BLOCK_SIZE)))
            (size - (address + size - (address / BLOCK_SIZE + 1) * BLOCK_SIZE))).2 ++
          (ena_storage_write_ops
            (ena_storage_write_ops f address
              (memcpy malloc 0 data 0
                (size - (address + size - (address / BLOCK_SIZE + 1) * BLOCK_SIZE)))
              (size - (address + size - (address / BLOCK_SIZE + 1) * BLOCK_SIZE))).1
            ((address / BLOCK_SIZE + 1) * BLOCK_SIZE)
            (memcpy malloc 0 data
              (size - (address + size - (address / BLOCK_SIZE + 1) * BLOCK_SIZE))
              (address + size - (address / BLOCK_SIZE + 1) * BLOCK_SIZE))
            (address + size - (address / BLOCK_SIZE + 1) * BLOCK_SIZE)).2) := by
  rw [ena_storage_write_ops]
  simp only [h, dite_false]

/-- The instrumented write computes the same partition as `ena_storage_write`. -/
theorem ena_storage_write_ops_fst (size : Nat) :
    ∀ (f : Flash) (address : Nat) (data : Buffer),
      (ena_storage_write_ops f address data size).1 = ena_storage_write f address data size := by
  induction size using Nat.strong_induction_on with
  | _ size ih =>
    intro f address data
    by_cases h : address + size ≤ (address / BLOCK_SIZE + 1) * BLOCK_SIZE
    · rw [ena_storage_write_ops_local f address data size h,
        ena_storage_write_local f address data size h]
    · have hs := split_sizes address size h
      rw [ena_storage_write_ops_split f address data size h,
        ena_storage_write_split f address data size h]
      simp only
      rw [ih _ hs.2.2.2.1, ih _ hs.2.2.1]

/-- The buffer that the block-local branch programs is the block image of the
spec. -/
theorem local_buffer_eq_block_with_data (f : Flash) (address : Nat) (data : Buffer)
    (size : Nat) (h : address + size ≤ (address / BLOCK_SIZE + 1) * BLOCK_SIZE) :
    memcpy (esp_partition_read f (address / BLOCK_SIZE * BLOCK_SIZE) malloc BLOCK_SIZE)
        (address - address / BLOCK_SIZE * BLOCK_SIZE) data 0 size =
      block_with_data f address data size (address / BLOCK_SIZE * BLOCK_SIZE) := by
  funext i
  simp only [memcpy, esp_partition_read, block_with_data, BLOCK_SIZE] at h ⊢
  by_cases hi : i < 4096
  · rw [if_pos hi]
    by_cases hr : address - address / 4096 * 4096 ≤ i ∧
        i < address - address / 4096 * 4096 + size
    · have hr2 : address ≤ address / 4096 * 4096 + i ∧
          address / 4096 * 4096 + i < address + size := by omega
      rw [if_pos hr, if_pos hi, if_pos hr2]
      congr 1
      omega
    · have hr2 : ¬ (address ≤ address / 4096 * 4096 + i ∧
          address / 4096 * 4096 + i < address + size) := by omega
      rw [if_neg hr, if_pos hi, if_neg hr2]
  · have hr : ¬ (address - address / 4096 * 4096 ≤ i ∧
        i < address - address / 4096 * 4096 + size) := by omega
    rw [if_neg hi, if_neg hr, if_neg hi]

/-- The primitives called by the block-local branch, with the programmed
buffer written as the block image of the spec. -/
theorem ena_storage_write_ops_local_snd (f : Flash) (address : Nat) (data : Buffer) (size : Nat)
    (h : address + size ≤ (address / BLOCK_SIZE + 1) * BLOCK_SIZE) :
    (ena_storage_write_ops f address data size).2 =
      [FlashOp.read (address / BLOCK_SIZE * BLOCK_SIZE) BLOCK_SIZE,
        FlashOp.erase (address / BLOCK_SIZE * BLOCK_SIZE) BLOCK_SIZE,
        FlashOp.write (address / BLOCK_SIZE * BLOCK_SIZE)
          (block_with_data f address data size (address / BLOCK_SIZE * BLOCK_SIZE))
          BLOCK_SIZE] := by
  rw [ena_storage_write_ops_local f address data size h,
    local_buffer_eq_block_with_data f address data size h]

/-- In the boundary-crossing branch, the block image of the first slice in the
first block is the block image of the whole range in that block. -/
theorem block_with_data_first_slice (f : Flash) (address : Nat) (data : Buffer) (size : Nat)
    (h : ¬ address + size ≤ (address / BLOCK_SIZE + 1) * BLOCK_SIZE) :
    block_with_data f address
        (memcpy malloc 0 data 0
          (size - (address + size - (address / BLOCK_SIZE + 1) * BLOCK_SIZE)))
        (size - (address + size - (address / BLOCK_SIZE + 1) * BLOCK_SIZE))
        (address / BLOCK_SIZE * BLOCK_SIZE) =
      block_with_data f address data size (address / BLOCK_SIZE * BLOCK_SIZE) := by
  funext i
  simp only [block_with_data, memcpy, BLOCK_SIZE] at h ⊢
  by_cases hi : i < 4096
  · rw [if_pos hi, if_pos hi]
    by_cases hr : address ≤ address / 4096 * 4096 + i
    · have h1 : address ≤ address / 4096 * 4096 + i ∧ address / 4096 * 4096 + i <
          address + (size - (address + size - (address / 4096 + 1) * 4096)) := by omega
      have h2 : address ≤ address / 4096 * 4096 + i ∧
          address / 4096 * 4096 + i < address + size := by omega
      have h3 : 0 ≤ address / 4096 * 4096 + i - address ∧
          address / 4096 * 4096 + i - address <
            0 + (size - (address + size - (address / 4096 + 1) * 4096)) := by omega
      rw [if_pos h1, if_pos h2, if_pos h3]
      congr 1
      omega
    · have h1 : ¬ (address ≤ address / 4096 * 4096 + i ∧ address / 4096 * 4096 + i <
          address + (size - (address + size - (address / 4096 + 1) * 4096))) := by omega
      have h2 : ¬ (address ≤ address / 4096 * 4096 + i ∧
          address / 4096 * 4096 + i < address + size) := by omega
      rw [if_neg h1, if_neg h2]
  · rw [if_neg hi, if_neg hi]

/-- In the boundary-crossing branch of a write of at most one block, the block
image of the second slice in the second block, read after the first block has
been rewritten, is the block image of the whole range in that block. -/
theorem block_with_data_second_slice (f : Flash) (address : Nat) (data : Buffer) (size : Nat)
    (h : ¬ address + size ≤ (address / BLOCK_SIZE + 1) * BLOCK_SIZE) :
    block_with_data
        (ena_storage_write f address
          (memcpy malloc 0 data 0
            (size - (address + size - (address / BLOCK_SIZE + 1) * BLOCK_SIZE)))
          (size - (address + size - (address / BLOCK_SIZE + 1) * BLOCK_SIZE)))
        ((address / BLOCK_SIZE + 1) * BLOCK_SIZE)
        (memcpy malloc 0 data
          (size - (address + size - (address / BLOCK_SIZE + 1) * BLOCK_SIZE))
          (address + size - (address / BLOCK_SIZE + 1) * BLOCK_SIZE))
        (address + size - (address / BLOCK_SIZE + 1) * BLOCK_SIZE)
        ((address / BLOCK_SIZE + 1) * BLOCK_SIZE) =
      block_with_data f address data size ((address / BLOCK_SIZE + 1) * BLOCK_SIZE) := by
  funext i
  simp only [block_with_data, memcpy, BLOCK_SIZE] at h ⊢
  by_cases hi : i < 4096
  · rw [if_pos hi, if_pos hi]
    by_cases hr : (address / 4096 + 1) * 4096 + i < address + size
    · have h1 : (address / 4096 + 1) * 4096 ≤ (address / 4096 + 1) * 4096 + i ∧
          (address / 4096 + 1) * 4096 + i <
            (address / 4096 + 1) * 4096 + (address + size - (address / 4096 + 1) * 4096) := by
        omega
      have h2 : address ≤ (address / 4096 + 1) * 4096 + i ∧
          (address / 4096 + 1) * 4096 + i < address + size := by omega
      have h3 : 0 ≤ (address / 4096 + 1) * 4096 + i - (address / 4096 + 1) * 4096 ∧
          (address / 4096 + 1) * 4096 + i - (address / 4096 + 1) * 4096 <
            0 + (address + size - (address / 4096 + 1) * 4096) := by omega
      rw [if_pos h1, if_pos h2, if_pos h3]
      congr 1
      omega
    · have h1 : ¬ ((address / 4096 + 1) * 4096 ≤ (address / 4096 + 1) * 4096 + i ∧
          (address / 4096 + 1) * 4096 + i <
            (address / 4096 + 1) * 4096 + (address + size - (address / 4096 + 1) * 4096)) := by
        omega
      have h2 : ¬ (address ≤ (address / 4096 + 1) * 4096 + i ∧
          (address / 4096 + 1) * 4096 + i < address + size) := by omega
      have h4 : ¬ (address ≤ (address / 4096 + 1) * 4096 + i ∧
          (address / 4096 + 1) * 4096 + i <
            address + (size - (address + size - (address / 4096 + 1) * 4096))) := by omega
      rw [if_neg h1, if_neg h2, ena_storage_write_apply, if_neg h4]
  · rw [if_neg hi, if_neg hi]

/-- C19: physical operation sequence of a write.  For every partition content,
address and data with `0 < size ≤ 4096`, `ena_storage_write` calls, for each
erase-block that intersects `[address, address + size)` in ascending order
and for no other block, one full-block read, then one erase of that block,
then one full-block write of the block as read with the target range replaced
by the data, and nothing else; the blocks concerned are exactly those that
intersect the range, and there are at most two of them.  The instrumented run
computes the same partition as `ena_storage_write`. -/
theorem ena_storage_write_physical_ops (f : Flash) (address : Nat) (data : Buffer) (size : Nat)
    (h0 : 0 < size) (hs : size ≤ BLOCK_SIZE) :
    (ena_storage_write_ops f address data size).2 = expected_write_ops f address data size ∧
      (∀ b, b ∈ blocks_of_range address size ↔
        (b * BLOCK_SIZE < address + size ∧ address < (b + 1) * BLOCK_SIZE)) ∧
      (blocks_of_range address size).length ≤ 2 ∧
      (ena_storage_write_ops f address data size).1 = ena_storage_write f address data size := by
  refine ⟨?_, ?_, ?_, ena_storage_write_ops_fst size f address data⟩
  · by_cases h : address + size ≤ (address / BLOCK_SIZE + 1) * BLOCK_SIZE
    · have hb : blocks_of_range address size = [address / BLOCK_SIZE] := by
        have e : (address + size - 1) / BLOCK_SIZE - address / BLOCK_SIZE + 1 = 1 := by
          simp only [BLOCK_SIZE] at h hs ⊢
          omega
        rw [blocks_of_range, e]
        rfl
      rw [ena_storage_write_ops_local_snd f address data size h, expected_write_ops, hb]
      rfl
    · have hb : blocks_of_range address size = [address / BLOCK_SIZE, address / BLOCK_SIZE + 1] := by
        have e : (address + size - 1) / BLOCK_SIZE - address / BLOCK_SIZE + 1 = 2 := by
          simp only [BLOCK_SIZE] at h hs ⊢
          omega
        rw [blocks_of_range, e]
        rfl
      have hsz := split_sizes address size h
      have hfit1 : address + (size - (address + size - (address / BLOCK_SIZE + 1) * BLOCK_SIZE)) ≤
          (address / BLOCK_SIZE + 1) * BLOCK_SIZE := Nat.le_of_eq hsz.2.1
      have hdiv : (address / BLOCK_SIZE + 1) * BLOCK_SIZE / BLOCK_SIZE = address / BLOCK_SIZE + 1 :=
        Nat.mul_div_cancel _ (by decide)
      have hfit2 : (address / BLOCK_SIZE + 1) * BLOCK_SIZE +
          (address + size - (address / BLOCK_SIZE + 1) * BLOCK_SIZE) ≤
          ((address / BLOCK_SIZE + 1) * BLOCK_SIZE / BLOCK_SIZE + 1) * BLOCK_SIZE := by
        rw [hdiv]
        simp only [BLOCK_SIZE] at h hs ⊢
        omega
      rw [ena_storage_write_ops_split f address data size h]
      simp only
      rw [ena_storage_write_ops_local_snd f address _ _ hfit1, ena_storage_write_ops_fst,
        ena_storage_write_ops_local_snd _ _ _ _ hfit2, hdiv,
        block_with_data_first_slice f address data size h,
        block_with_data_second_slice f address data size h, expected_write_ops, hb]
      rfl
  · intro b
    simp only [blocks_of_range, List.mem_range'_1, BLOCK_SIZE] at hs ⊢
    constructor
    · intro hb
      omega
    · intro hb
      omega
  · simp only [blocks_of_range, List.length_range', BLOCK_SIZE] at hs ⊢
    omega

/-- Witness of C19: a 10-byte write at offset 4090 touches the blocks 0 and 1
and performs six primitives. -/
theorem ena_storage_write_physical_ops_witness :
    (ena_storage_write_ops zeroFlash 4090 (constRecord 1) 10).2 =
        expected_write_ops zeroFlash 4090 (constRecord 1) 10 ∧
      (blocks_of_range 4090 10).length ≤ 2 :=
  ⟨(ena_storage_write_physical_ops zeroFlash 4090 (constRecord 1) 10 (by decide)
      (by decide)).1,
    (ena_storage_write_physical_ops zeroFlash 4090 (constRecord 1) 10 (by decide)
      (by decide)).2.2.1⟩

/-! ## Last key away from multiples of the period -/

/-- C21: last key away from period multiples.  With `TEK_STORE_PERIOD = 14`
(and a key log that lies below `2 ^ 32`), for every `n` with `n mod 14 ≠ 0`
(so `n ≥ 1`) that the `uint32_t` return value can express (`n < 2 ^ 32`), after
`n` calls of `ena_storage_write_tek` with the records `r 1 .. r n` starting
from a key count of 0, `ena_storage_read_last_tek` returns `n` together with
what it reads from slot `(n mod 14) - 1`, and that record is `r n`. -/
theorem ena_storage_read_last_tek_away_from_period (cfg : Config) (f : Flash)
    (r : Nat → Buffer) (out : Buffer) (n : Nat)
    (hP : cfg.ENA_STORAGE_TEK_STORE_PERIOD = 14)
    (hfit : ENA_STORAGE_TEMP_DETECTIONS_COUNT_ADDRESS cfg < 2 ^ 32)
    (hc : read_tek_count f = 0) (hn : n < 2 ^ 32) (hmod : n % 14 ≠ 0) :
    ena_storage_read_last_tek cfg
        (write_teks cfg f ((List.range n).map fun k => r (k + 1))) out =
      (n, ena_storage_read (write_teks cfg f ((List.range n).map fun k => r (k + 1)))
        (ENA_STORAGE_TEK_START_ADDRESS + (n % 14 - 1) * cfg.sizeof_ena_tek_t) out
        cfg.sizeof_ena_tek_t) ∧
    ena_storage_read (write_teks cfg f ((List.range n).map fun k => r (k + 1)))
        (ENA_STORAGE_TEK_START_ADDRESS + (n % 14 - 1) * cfg.sizeof_ena_tek_t) out
        cfg.sizeof_ena_tek_t =
      fun i => if i < cfg.sizeof_ena_tek_t then r n i else out i := by
  have hP0 : 0 < cfg.ENA_STORAGE_TEK_STORE_PERIOD := by omega
  have hP256 : cfg.ENA_STORAGE_TEK_STORE_PERIOD ≤ 256 := by omega
  have hn0 : n - 1 + 1 = n := by omega
  have hslot : ena_storage_read (write_teks cfg f ((List.range n).map fun k => r (k + 1)))
      (ENA_STORAGE_TEK_START_ADDRESS + (n % 14 - 1) * cfg.sizeof_ena_tek_t) out
      cfg.sizeof_ena_tek_t =
      fun i => if i < cfg.sizeof_ena_tek_t then r n i else out i := by
    apply ena_storage_read_eq_record
    intro i hi
    have h := write_teks_slot cfg f (fun k => r (k + 1)) hP0 hP256 hfit hc n (by omega) (n - 1)
      (by omega) (fun k hk1 hk2 => by omega) i hi
    have hpred : (n - 1) % 14 = n % 14 - 1 := by omega
    rw [hP, hpred] at h
    simp only [hn0] at h
    exact h
  refine ⟨?_, hslot⟩
  rw [hslot, ena_storage_read_last_tek_write_teks cfg f (fun k => r (k + 1)) out n hP0 hP256
    hfit hc hn (by rw [hP]; exact hmod)]
  simp only [hn0]

/-- Witness of C21: the spec's layout, a partition of zeros and three
writes of the records `r k` whose bytes all have the value `k`; the last key
read is `r 3`, from slot 2. -/
theorem ena_storage_read_last_tek_away_from_period_witness :
    ena_storage_read (write_teks (specConfig 1000) zeroFlash
          ((List.range 3).map fun k => constRecord (k + 1)))
        (ENA_STORAGE_TEK_START_ADDRESS + (3 % 14 - 1) * (specConfig 1000).sizeof_ena_tek_t)
        malloc (specConfig 1000).sizeof_ena_tek_t =
      fun i => if i < (specConfig 1000).sizeof_ena_tek_t then constRecord 3 i else malloc i :=
  (ena_storage_read_last_tek_away_from_period (specConfig 1000) zeroFlash constRecord malloc 3
    (by decide) (by decide) (by decide) (by decide) (by decide)).2

/-! ## Temporary detections: add before wrap-around -/

/-- C22: add before wrap-around.  In a layout whose temporary-detection ring
lies below `2 ^ 32`, for every state with temporary-detection count `c` such
that `c < TEMP_DETECTIONS_MAX` and `c ≤ 255`, and every record `X`,
`ena_storage_add_temp_detection(X)` returns `c`, the persisted count becomes
`c + 1`, `ena_storage_get_temp_detection(c)` returns `X`, and
`ena_storage_get_temp_detection(j)` is unchanged for every `j < c`. -/
theorem ena_storage_add_temp_detection_before_wraparound (cfg : Config) (f : Flash)
    (X out : Buffer) (c : Nat)
    (hfit : ENA_STORAGE_DETECTIONS_COUNT_ADDRESS cfg < 2 ^ 32)
    (hc : ena_storage_temp_detections_count cfg f = c)
    (hM : c < cfg.ENA_STORAGE_TEMP_DETECTIONS_MAX) (h255 : c ≤ 255) :
    (ena_storage_add_temp_detection cfg f X).1 = c ∧
      ena_storage_temp_detections_count cfg (ena_storage_add_temp_detection cfg f X).2 =
        c + 1 ∧
      ena_storage_get_temp_detection cfg (ena_storage_add_temp_detection cfg f X).2 c out =
        (fun i => if i < cfg.sizeof_ena_temp_detection_t then X i else out i) ∧
      ∀ j, j < c →
        ena_storage_get_temp_detection cfg (ena_storage_add_temp_detection cfg f X).2 j out =
          ena_storage_get_temp_detection cfg f j out := by
  have hidx : c % cfg.ENA_STORAGE_TEMP_DETECTIONS_MAX % 256 = c := by
    rw [Nat.mod_eq_of_lt hM]
    exact Nat.mod_eq_of_lt (by omega)
  have hmax : ENA_STORAGE_TEMP_DETECTIONS_START_ADDRESS cfg +
      cfg.ENA_STORAGE_TEMP_DETECTIONS_MAX * cfg.sizeof_ena_temp_detection_t < 2 ^ 32 := by
    simp only [ENA_STORAGE_DETECTIONS_COUNT_ADDRESS] at hfit
    rw [Nat.mul_comm]
    exact hfit
  have hslot := Nat.mul_le_mul_right cfg.sizeof_ena_temp_detection_t (Nat.succ_le_of_lt hM)
  rw [Nat.succ_mul] at hslot
  have hS : ENA_STORAGE_TEMP_DETECTIONS_START_ADDRESS cfg =
      ENA_STORAGE_TEMP_DETECTIONS_COUNT_ADDRESS cfg + sizeof_uint32_t := rfl
  have haddr : (ENA_STORAGE_TEMP_DETECTIONS_START_ADDRESS cfg +
      c * cfg.sizeof_ena_temp_detection_t) % 2 ^ 32 =
      ENA_STORAGE_TEMP_DETECTIONS_START_ADDRESS cfg + c * cfg.sizeof_ena_temp_detection_t :=
    Nat.mod_eq_of_lt (by omega)
  refine ⟨?_, ?_, ?_, ?_⟩
  · simp only [ena_storage_add_temp_detection, hc]
    omega
  · rw [ena_storage_temp_detections_count_add, hc]
    exact Nat.mod_eq_of_lt (by omega)
  · funext i
    simp only [ena_storage_get_temp_detection, ena_storage_read, esp_partition_read]
    by_cases hi : i < cfg.sizeof_ena_temp_detection_t
    · rw [if_pos hi, if_pos hi, ena_storage_add_temp_detection_apply, hc, hidx, haddr]
      have h1 : ¬ (ENA_STORAGE_TEMP_DETECTIONS_COUNT_ADDRESS cfg ≤
          ENA_STORAGE_TEMP_DETECTIONS_START_ADDRESS cfg +
            c * cfg.sizeof_ena_temp_detection_t + i ∧
          ENA_STORAGE_TEMP_DETECTIONS_START_ADDRESS cfg +
            c * cfg.sizeof_ena_temp_detection_t + i <
            ENA_STORAGE_TEMP_DETECTIONS_COUNT_ADDRESS cfg + sizeof_uint32_t) := by omega
      have h2 : ENA_STORAGE_TEMP_DETECTIONS_START_ADDRESS cfg +
            c * cfg.sizeof_ena_temp_detection_t ≤
          ENA_STORAGE_TEMP_DETECTIONS_START_ADDRESS cfg +
            c * cfg.sizeof_ena_temp_detection_t + i ∧
          ENA_STORAGE_TEMP_DETECTIONS_START_ADDRESS cfg +
            c * cfg.sizeof_ena_temp_detection_t + i <
            ENA_STORAGE_TEMP_DETECTIONS_START_ADDRESS cfg +
              c * cfg.sizeof_ena_temp_detection_t + cfg.sizeof_ena_temp_detection_t := by
        omega
      rw [if_neg h1, if_pos h2]
      congr 1
      omega
    · rw [if_neg hi, if_neg hi]
  · intro j hj
    funext i
    simp only [ena_storage_get_temp_detection, ena_storage_read, esp_partition_read]
    by_cases hi : i < cfg.sizeof_ena_temp_detection_t
    · have hjc := Nat.mul_le_mul_right cfg.sizeof_ena_temp_detection_t (Nat.succ_le_of_lt hj)
      rw [Nat.succ_mul] at hjc
      have haddrj : (ENA_STORAGE_TEMP_DETECTIONS_START_ADDRESS cfg +
          j * cfg.sizeof_ena_temp_detection_t) % 2 ^ 32 =
          ENA_STORAGE_TEMP_DETECTIONS_START_ADDRESS cfg +
            j * cfg.sizeof_ena_temp_detection_t :=
        Nat.mod_eq_of_lt (by omega)
      rw [if_pos hi, if_pos hi, ena_storage_add_temp_detection_apply, hc, hidx, haddr, haddrj]
      have h1 : ¬ (ENA_STORAGE_TEMP_DETECTIONS_COUNT_ADDRESS cfg ≤
          ENA_STORAGE_TEMP_DETECTIONS_START_ADDRESS cfg +
            j * cfg.sizeof_ena_temp_detection_t + i ∧
          ENA_STORAGE_TEMP_DETECTIONS_START_ADDRESS cfg +
            j * cfg.sizeof_ena_temp_detection_t + i <
            ENA_STORAGE_TEMP_DETECTIONS_COUNT_ADDRESS cfg + sizeof_uint32_t) := by omega
      have h2 : ¬ (ENA_STORAGE_TEMP_DETECTIONS_START_ADDRESS cfg +
            c * cfg.sizeof_ena_temp_detection_t ≤
          ENA_STORAGE_TEMP_DETECTIONS_START_ADDRESS cfg +
            j * cfg.sizeof_ena_temp_detection_t + i ∧
          ENA_STORAGE_TEMP_DETECTIONS_START_ADDRESS cfg +
            j * cfg.sizeof_ena_temp_detection_t + i <
            ENA_STORAGE_TEMP_DETECTIONS_START_ADDRESS cfg +
              c * cfg.sizeof_ena_temp_detection_t + cfg.sizeof_ena_temp_detection_t) := by
        omega
      rw [if_neg h1, if_neg h2]
    · rw [if_neg hi, if_neg hi]

/-- Witness of C22: the spec's layout with capacity 1000, a partition holding
three temporary detections and a record of ones; add returns 3, the count
becomes 4 and slot 3 reads back as the record. -/
theorem ena_storage_add_temp_detection_before_wraparound_witness :
    (ena_storage_add_temp_detection (specConfig 1000) threeDetectionsFlash (constRecord 1)).1
        = 3 ∧
      ena_storage_temp_detections_count (specConfig 1000)
        (ena_storage_add_temp_detection (specConfig 1000) threeDetectionsFlash
          (constRecord 1)).2 = 3 + 1 ∧
      ena_storage_get_temp_detection (specConfig 1000)
          (ena_storage_add_temp_detection (specConfig 1000) threeDetectionsFlash
            (constRecord 1)).2 3 malloc =
        (fun i => if i < (specConfig 1000).sizeof_ena_temp_detection_t then constRecord 1 i
          else malloc i) :=
  ⟨(ena_storage_add_temp_detection_before_wraparound (specConfig 1000) threeDetectionsFlash
      (constRecord 1) malloc 3 (by decide) (by decide) (by decide) (by decide)).1,
    (ena_storage_add_temp_detection_before_wraparound (specConfig 1000) threeDetectionsFlash
      (constRecord 1) malloc 3 (by decide) (by decide) (by decide) (by decide)).2.1,
    (ena_storage_add_temp_detection_before_wraparound (specConfig 1000) threeDetectionsFlash
      (constRecord 1) malloc 3 (by decide) (by decide) (by decide) (by decide)).2.2.1⟩

end EnaStorage
